import Mathlib

/-!
Verification of the Mini-Agent web client's streaming chat-event assembly
engine.  The definitions below are a shallow embedding of the relevant
JavaScript source:

* `src/frontend/src/api/chat.js`, `sendMessage` — the SSE frame decoder
  (byte-chunk buffering, line splitting, `data: ` payload parsing);
* `src/frontend/src/components/PptPreview.vue`, `handleSendMessage` — the
  per-turn event dispatcher: `addBlock`, `ensureAssistantMessage`,
  `updateThinkingDuration`, the `onChunk` branch for each event type, the
  session bookkeeping in the `start`/`done` branches, and the `catch`
  handler;
* `src/frontend/src/components/ChatMessage.vue`, `sortedBlocks` — the
  renderer's ordering of timeline blocks.

Modelling conventions: JavaScript strings are `String`, absent object
properties are `none`, JSON numbers are scaled decimals (`JNum`), and
wall-clock values (`Date.now()`, `toISOString()`) are abstracted — message
ids keep their distinct `user-` / `assistant-` prefixes and `created_at`
is tracked as a presence flag.  Event fields are read at their wire types
(spec §6); a field carrying a value of a different JSON type reads as
absent.  Chunks are modelled at text level: the incremental `TextDecoder`
makes byte-level splitting of valid UTF-8 equivalent to text-level
splitting.
-/

namespace MiniAgent

/-- A JSON number as decoded from the wire, valued `mantissa / 10 ^ exp10`. -/
structure JNum where
  mantissa : Int
  exp10 : Nat
deriving DecidableEq

/-- JSON values, as produced by `JSON.parse` on one `data: ` payload. -/
inductive Json where
  | null : Json
  | bool : Bool → Json
  | num : JNum → Json
  | str : String → Json
  | arr : List Json → Json
  | obj : List (String × Json) → Json

/-- JavaScript truthiness of a JSON value (`0`, `""`, `false`, `null` are
falsy; every object and array is truthy). -/
def Json.truthy : Json → Bool
  | Json.null => false
  | Json.bool b => b
  | Json.num n => n.mantissa != 0
  | Json.str s => s != ""
  | Json.arr _ => true
  | Json.obj _ => true

/-- Whitespace accepted between JSON tokens. -/
def isJsonWs (c : Char) : Bool :=
  c = ' ' || c = '\t' || c = '\r' || c = '\n'

/-- Drop leading JSON whitespace. -/
def skipWs : List Char → List Char
  | [] => []
  | c :: cs => if isJsonWs c then skipWs cs else c :: cs

/-- Value of a decimal digit (code points 48–57). -/
def digitVal (c : Char) : Option Nat :=
  let n := c.toNat
  if 48 ≤ n ∧ n ≤ 57 then some (n - 48) else none

/-- Value of a hexadecimal digit: a decimal digit, or a letter in either
case (code points 97–102 and 65–70). -/
def hexVal (c : Char) : Option Nat :=
  match digitVal c with
  | some d => some d
  | none =>
    let n := c.toNat
    if 97 ≤ n ∧ n ≤ 102 then some (n - 87)
    else if 65 ≤ n ∧ n ≤ 70 then some (n - 55)
    else none

/-- Take the maximal run of leading decimal digits. -/
def takeDigits : List Char → List Nat × List Char
  | [] => ([], [])
  | c :: cs =>
    match digitVal c with
    | some d => let p := takeDigits cs; (d :: p.1, p.2)
    | none => ([], c :: cs)

/-- Read a digit run as a natural number. -/
def digitsToNat (ds : List Nat) : Nat :=
  ds.foldl (fun a d => a * 10 + d) 0

/-- Body of a JSON string after the opening quote, with the usual escapes. -/
def parseStringBody : Nat → List Char → Option (String × List Char)
  | 0, _ => none
  | _, [] => none
  | fuel + 1, c :: cs =>
    if c = '\"' then some ("", cs)
    else if c = '\\' then
      match cs with
      | [] => none
      | e :: cs' =>
        if e = '\"' ∨ e = '\\' ∨ e = '/' then
          (parseStringBody fuel cs').map (fun p => (⟨e :: p.1.data⟩, p.2))
        else if e = 'n' then
          (parseStringBody fuel cs').map (fun p => (⟨'\n' :: p.1.data⟩, p.2))
        else if e = 't' then
          (parseStringBody fuel cs').map (fun p => (⟨'\t' :: p.1.data⟩, p.2))
        else if e = 'r' then
          (parseStringBody fuel cs').map (fun p => (⟨'\r' :: p.1.data⟩, p.2))
        else if e = 'b' then
          (parseStringBody fuel cs').map (fun p => (⟨'\x08' :: p.1.data⟩, p.2))
        else if e = 'f' then
          (parseStringBody fuel cs').map (fun p => (⟨'\x0c' :: p.1.data⟩, p.2))
        else if e = 'u' then
          match cs' with
          | h1 :: h2 :: h3 :: h4 :: rest =>
            match hexVal h1, hexVal h2, hexVal h3, hexVal h4 with
            | some a, some b, some c2, some d =>
              (parseStringBody fuel rest).map
                (fun p => (⟨Char.ofNat (d + 16 * (c2 + 16 * (b + 16 * a))) :: p.1.data⟩, p.2))
            | _, _, _, _ => none
          | _ => none
        else none
    else (parseStringBody fuel cs).map (fun p => (⟨c :: p.1.data⟩, p.2))

/-- Optional fraction part of a JSON number. -/
def parseFrac : List Char → Option (List Nat × List Char)
  | '.' :: r =>
    let p := takeDigits r
    if p.1 = [] then none else some p
  | cs => some ([], cs)

/-- Optional exponent part of a JSON number. -/
def parseExp : List Char → Option (Int × List Char)
  | [] => some (0, [])
  | c :: r =>
    if c = 'e' ∨ c = 'E' then
      let q : Int × List Char :=
        match r with
        | s :: r' =>
          if s = '+' then (1, r')
          else if s = '-' then (-1, r')
          else (1, s :: r')
        | [] => (1, [])
      let p := takeDigits q.2
      if p.1 = [] then none else some (q.1 * (digitsToNat p.1 : Int), p.2)
    else some (0, c :: r)

/-- Assemble a scaled decimal from sign, integer digits, fraction digits
and exponent. -/
def mkJNum (sgn : Int) (ip : Nat) (fds : List Nat) (e : Int) : JNum :=
  let m : Int := sgn * ((ip * 10 ^ fds.length + digitsToNat fds : Nat) : Int)
  let t : Int := e - (fds.length : Int)
  if 0 ≤ t then ⟨m * 10 ^ t.toNat, 0⟩ else ⟨m, (-t).toNat⟩

/-- A JSON number literal. -/
def parseNumber (cs : List Char) : Option (JNum × List Char) :=
  let q : Int × List Char :=
    match cs with
    | s :: r => if s = '-' then (-1, r) else (1, s :: r)
    | [] => (1, [])
  let ip := takeDigits q.2
  if ip.1 = [] then none
  else
    match parseFrac ip.2 with
    | none => none
    | some fp =>
      match parseExp fp.2 with
      | none => none
      | some ep => some (mkJNum q.1 (digitsToNat ip.1) fp.1 ep.1, ep.2)

mutual

/-- A JSON value (recursive descent, fuel-bounded; the top-level caller
supplies enough fuel for any input of the given length). -/
def parseValue : Nat → List Char → Option (Json × List Char)
  | 0, _ => none
  | fuel + 1, cs =>
    match skipWs cs with
    | [] => none
    | '\x7b' :: rest =>
      match skipWs rest with
      | '\x7d' :: rest' => some (Json.obj [], rest')
      | rest' => (parseMembers fuel rest').map (fun p => (Json.obj p.1, p.2))
    | '[' :: rest =>
      match skipWs rest with
      | ']' :: rest' => some (Json.arr [], rest')
      | rest' => (parseElems fuel rest').map (fun p => (Json.arr p.1, p.2))
    | '\"' :: rest =>
      (parseStringBody (rest.length + 1) rest).map (fun p => (Json.str p.1, p.2))
    | 't' :: 'r' :: 'u' :: 'e' :: rest => some (Json.bool true, rest)
    | 'f' :: 'a' :: 'l' :: 's' :: 'e' :: rest => some (Json.bool false, rest)
    | 'n' :: 'u' :: 'l' :: 'l' :: rest => some (Json.null, rest)
    | cs' => (parseNumber cs').map (fun p => (Json.num p.1, p.2))

/-- The members of a JSON object after its opening brace (at least one). -/
def parseMembers : Nat → List Char → Option (List (String × Json) × List Char)
  | 0, _ => none
  | fuel + 1, cs =>
    match skipWs cs with
    | '\"' :: rest =>
      match parseStringBody (rest.length + 1) rest with
      | none => none
      | some kp =>
        match skipWs kp.2 with
        | ':' :: r2 =>
          match parseValue fuel r2 with
          | none => none
          | some vp =>
            match skipWs vp.2 with
            | ',' :: r4 =>
              (parseMembers fuel r4).map (fun p => ((kp.1, vp.1) :: p.1, p.2))
            | '\x7d' :: r4 => some ([(kp.1, vp.1)], r4)
            | _ => none
        | _ => none
    | _ => none

/-- The elements of a JSON array after its opening bracket (at least one). -/
def parseElems : Nat → List Char → Option (List Json × List Char)
  | 0, _ => none
  | fuel + 1, cs =>
    match parseValue fuel cs with
    | none => none
    | some vp =>
      match skipWs vp.2 with
      | ',' :: r => (parseElems fuel r).map (fun p => (vp.1 :: p.1, p.2))
      | ']' :: r => some ([vp.1], r)
      | _ => none

end

/-- `JSON.parse` on one payload string: one value, then only whitespace. -/
def jsonParseChars (cs : List Char) : Option Json :=
  match parseValue (cs.length + 1) cs with
  | some p => if skipWs p.2 = [] then some p.1 else none
  | none => none

/-- `JSON.parse` on a Lean string. -/
def jsonParse (s : String) : Option Json := jsonParseChars s.data

/-! ## Frame decoder (`sendMessage` in `api/chat.js`)

```js
buffer += decoder.decode(value, { stream: true })
const lines = buffer.split('\n')
buffer = lines.pop() || ''
for (const line of lines)
  if (line.startsWith('data: '))
    try { onChunk(JSON.parse(line.slice(6))) } catch (e) { ... }
```
-/

/-- `buffer.split('\n')` with the last piece set apart: the complete lines
(each terminated by a `'\n'` that is not included) and the trailing
remainder. -/
def splitNl : List Char → List (List Char) × List Char
  | [] => ([], [])
  | c :: cs =>
    let p := splitNl cs
    if c = '\n' then ([] :: p.1, p.2)
    else
      match p with
      | ([], r) => ([], c :: r)
      | (l :: ls, r) => ((c :: l) :: ls, r)

/-- The six characters of the SSE payload marker `data: `. -/
def dataTag : List Char := ['d', 'a', 't', 'a', ':', ' ']

/-- Handling of one complete line: lines that do not start with `data: `
are skipped, and a `JSON.parse` failure on the payload drops the line
(`none`) instead of aborting. -/
def parseLine (l : List Char) : Option Json :=
  if dataTag.isPrefixOf l then jsonParseChars (l.drop 6) else none

/-- One iteration of the read loop: append the chunk to the pending
buffer, split off the complete lines, keep the trailing remainder as the
new buffer, and parse each complete line. -/
def processChunk (buf chunk : List Char) : List Json × List Char :=
  let p := splitNl (buf ++ chunk)
  (p.1.filterMap parseLine, p.2)

/-- The read loop from a given pending buffer: the events delivered to
`onChunk` in order, and the buffer left when the byte source ends (it is
never parsed or emitted). -/
def processStreamFrom (buf : List Char) : List (List Char) → List Json × List Char
  | [] => ([], buf)
  | ch :: rest =>
    let p := processChunk buf ch
    let q := processStreamFrom p.2 rest
    (p.1 ++ q.1, q.2)

/-- The whole read loop of `sendMessage`, starting from the empty buffer. -/
def processStream (chunks : List (List Char)) : List Json × List Char :=
  processStreamFrom [] chunks

/-! ## Event records and JavaScript field access -/

/-- Fields of one decoded event, read at their wire types (spec §6);
`none` marks a property that is absent (or carries a value of another
JSON type, which the dispatch code would treat the same way in every
situation the claims exercise). -/
structure EventRecord where
  type : String := ""
  content : Option String := none
  tool_name : Option String := none
  arguments : Option Json := none
  result : Option String := none
  success : Option Bool := none
  duration : Option JNum := none
  session_id : Option String := none
  title : Option String := none
  thinking_duration : Option JNum := none

/-- Property lookup on a parsed JSON value; on duplicate keys `JSON.parse`
keeps the last occurrence. -/
def Json.getField (j : Json) (k : String) : Option Json :=
  match j with
  | Json.obj fs => (fs.reverse.find? (fun f => f.1 = k)).map (fun f => f.2)
  | _ => none

/-- Read a field as a string. -/
def fieldStr (j : Json) (k : String) : Option String :=
  match j.getField k with
  | some (Json.str s) => some s
  | _ => none

/-- Read a field as a boolean. -/
def fieldBool (j : Json) (k : String) : Option Bool :=
  match j.getField k with
  | some (Json.bool b) => some b
  | _ => none

/-- Read a field as a number. -/
def fieldNum (j : Json) (k : String) : Option JNum :=
  match j.getField k with
  | some (Json.num n) => some n
  | _ => none

/-- The fields the dispatch code reads from one parsed frame
(`data.type`, `data.content`, …). -/
def toEventRecord (j : Json) : EventRecord :=
  { type := (fieldStr j "type").getD ""
    content := fieldStr j "content"
    tool_name := fieldStr j "tool_name"
    arguments := j.getField "arguments"
    result := fieldStr j "result"
    success := fieldBool j "success"
    duration := fieldNum j "duration"
    session_id := fieldStr j "session_id"
    title := fieldStr j "title"
    thinking_duration := fieldNum j "thinking_duration" }

/-- `x || d` for an optional string: the falsy cases are absence and `""`. -/
def jsOrStr (o : Option String) (d : String) : String :=
  match o with
  | some s => if s = "" then d else s
  | none => d

/-- Truthiness of an optional string property. -/
def truthyStr (o : Option String) : Bool :=
  match o with
  | some s => s != ""
  | none => false

/-- Truthiness of an optional JSON property. -/
def truthyJson (o : Option Json) : Bool :=
  match o with
  | some j => j.truthy
  | none => false

/-- Truthiness of an optional number property (`0` is falsy). -/
def truthyNum (o : Option JNum) : Bool :=
  match o with
  | some n => n.mantissa != 0
  | none => false

/-- `x || d` for an optional JSON property (used for `data.arguments || {}`). -/
def jsOrJson (o : Option Json) (d : Json) : Json :=
  match o with
  | some j => if j.truthy then j else d
  | none => d

/-- `x || d` where both sides are optional numbers
(`data.thinking_duration || messages[idx].thinking_duration`). -/
def jsOrNum (o : Option JNum) (d : Option JNum) : Option JNum :=
  match o with
  | some n => if n.mantissa = 0 then d else some n
  | none => d

/-! ## Turn state (`handleSendMessage` in `PptPreview.vue`) -/

/-- One entry of `currentToolCalls` / `message.tool_calls`. -/
structure ToolCall where
  tool_name : String
  arguments : Json
  result : String
  success : Bool

/-- One timeline block as built by `addBlock`.  `none` marks a property
the building code never set.  No `order` property is ever assigned
anywhere in the source: a block's order is its position in the `blocks`
array, fixed when the block is pushed. -/
structure Block where
  type : String
  content : String
  tool_name : Option String := none
  arguments : Option Json := none
  result : Option String := none
  success : Option Bool := none
  duration : Option JNum := none

/-- The object literal passed to `addBlock` at each call site
(`{ content: ... }`, `{ tool_name: ..., arguments: ..., content: '' }`, …);
`none` marks a property absent from the literal. -/
structure BlockData where
  content : String
  tool_name : Option String := none
  arguments : Option Json := none
  result : Option String := none
  success : Option Bool := none
  duration : Option JNum := none

/-- One entry of the session list (`created_at`, a wall-clock stamp, is
not modelled). -/
structure SessionRecord where
  session_id : String
  title : String

/-- One entry of `messages.value`, restricted to the fields the streaming
engine reads or writes.  `hasCreatedAt` models whether `created_at` holds
a timestamp rather than `null`; attachment descriptors are opaque to the
engine and are not modelled. -/
structure Msg where
  id : String
  role : String
  content : String
  thinking : String := ""
  tool_calls : List ToolCall := []
  blocks : List Block := []
  loading : Bool := false
  thinking_duration : Option JNum := none
  hasCreatedAt : Bool := false

/-- The state one call of `handleSendMessage` operates on: the component
refs it touches (`messages`, `sessions`, `currentSessionId`, `error`) and
its local accumulators.  `currentBlock` is not stored separately: it is
assigned exactly when a block is pushed and all later writes to it go
through the alias into the array, so it always denotes the last element
of the assistant message's `blocks` and the embedding reads and rewrites
that last element directly. -/
structure TurnState where
  messages : List Msg
  sessions : List SessionRecord
  currentSessionId : Option String
  errorMsg : Option String
  userText : String
  assistantCreated : Bool
  currentThinking : String
  currentContent : String
  currentToolCalls : List ToolCall

/-- `user-${Date.now()}` with the timestamp abstracted; the `user-` /
`assistant-` prefixes keep the two ids of a turn distinct. -/
def userMsgId : String := "user-0"

/-- `assistant-${Date.now()}` with the timestamp abstracted. -/
def assistantMsgId : String := "assistant-0"

/-- The user message pushed when the turn starts (whitespace
normalisation of the text and the attachment list are not modelled; the
engine never reads them). -/
def initUserMsg (text : String) : Msg :=
  { id := userMsgId, role := "user", content := text }

/-- The state right after `messages.value.push(userMessage)`, before the
first event: the prior message list is empty (a fresh conversation view),
the session list and current session id are whatever the component held. -/
def initState (text : String) (sessions : List SessionRecord)
    (csid : Option String) : TurnState :=
  { messages := [initUserMsg text]
    sessions := sessions
    currentSessionId := csid
    errorMsg := none
    userText := text
    assistantCreated := false
    currentThinking := ""
    currentContent := ""
    currentToolCalls := [] }

/-- `const idx = messages.value.findIndex(m => m.id === assistantMsgId);
if (idx !== -1) messages.value[idx] = f(messages.value[idx])`. -/
def updateAssistant (s : TurnState) (f : Msg → Msg) : TurnState :=
  match s.messages.findIdx? (fun m => m.id = assistantMsgId) with
  | some i => { s with messages := s.messages.modify f i }
  | none => s

/-- The assistant message of the turn, when it exists. -/
def assistantMsg? (s : TurnState) : Option Msg :=
  s.messages.find? (fun m => m.id = assistantMsgId)

/-- The turn's timeline: the `blocks` of the assistant message. -/
def assistantBlocks (s : TurnState) : List Block :=
  ((assistantMsg? s).map Msg.blocks).getD []

/-- The assistant message's `content`, when the message exists. -/
def assistantContent (s : TurnState) : Option String :=
  (assistantMsg? s).map Msg.content

/-- The placeholder assistant message object pushed by
`ensureAssistantMessage()`. -/
def blankAssistant : Msg :=
  { id := assistantMsgId, role := "assistant", content := ""
    thinking := "", tool_calls := [], blocks := [], loading := true }

/-- `ensureAssistantMessage()`: push the placeholder assistant message
once, lazily. -/
def ensureAssistantMessage (s : TurnState) : TurnState :=
  if s.assistantCreated then s
  else
    { s with
      messages := s.messages ++ [blankAssistant]
      assistantCreated := true }

/-- The coalescing branch of `addBlock`: append the text and overwrite
each field the data object carries (`if (data.tool_name) ...` and the
`!== undefined` checks). -/
def mergeBlock (cb : Block) (d : BlockData) : Block :=
  { cb with
    content := cb.content ++ d.content
    tool_name := if truthyStr d.tool_name then d.tool_name else cb.tool_name
    arguments := if truthyJson d.arguments then d.arguments else cb.arguments
    result := if d.result.isSome then d.result else cb.result
    success := if d.success.isSome then d.success else cb.success
    duration := if d.duration.isSome then d.duration else cb.duration }

/-- The fresh-block branch of `addBlock`: `{ type, content: '', ...data }`. -/
def Block.ofData (ty : String) (d : BlockData) : Block :=
  { type := ty, content := d.content, tool_name := d.tool_name
    arguments := d.arguments, result := d.result, success := d.success
    duration := d.duration }

/-- `addBlock(type, data)`: ensure the assistant message exists; if
`currentBlock` (the last pushed block) has a different kind — or there is
none — push a fresh block, otherwise coalesce into it in place. -/
def addBlock (ty : String) (d : BlockData) (s : TurnState) : TurnState :=
  let s' := ensureAssistantMessage s
  match (assistantBlocks s').getLast? with
  | some cb =>
    if cb.type = ty then
      updateAssistant s' (fun m =>
        { m with blocks := m.blocks.set (m.blocks.length - 1) (mergeBlock cb d) })
    else
      updateAssistant s' (fun m => { m with blocks := m.blocks ++ [Block.ofData ty d] })
  | none =>
    updateAssistant s' (fun m => { m with blocks := m.blocks ++ [Block.ofData ty d] })

/-- `updateThinkingDuration(duration)`: `blocks.find(b => b.type ===
'thinking')` — the first `thinking` block — gets its `duration` set, and
the message records `thinking_duration`; without an assistant message the
lookup by id finds nothing and nothing changes. -/
def updateThinkingDuration (s : TurnState) (d : JNum) : TurnState :=
  updateAssistant s (fun m =>
    let blocks :=
      match m.blocks.findIdx? (fun b => b.type = "thinking") with
      | some i => m.blocks.modify (fun b => { b with duration := some d }) i
      | none => m.blocks
    { m with blocks := blocks, thinking_duration := some d })

/-- `currentToolCalls[currentToolCalls.length - 1].result = ...` and the
matching `success` write. -/
def setLastToolCall (tcs : List ToolCall) (res : String) (suc : Bool) :
    List ToolCall :=
  match tcs.getLast? with
  | some t => tcs.set (tcs.length - 1) { t with result := res, success := suc }
  | none => tcs

/-- The session bookkeeping duplicated verbatim in the `start` and `done`
branches: when the event carries a (truthy) `session_id`, adopt it as the
current session id; create the record (an `unshift` onto the list) if the
id is new, titling it from `data.title || (message.substring(0, 12) +
'...') || '新会话'`; if a record already exists and the event carries a
truthy title, refresh only that record's title.  Returns the new session
list and current session id. -/
def reconcileSession (ss : List SessionRecord) (userText : String)
    (csid : Option String) (sid : Option String) (title : Option String) :
    List SessionRecord × Option String :=
  match sid with
  | none => (ss, csid)
  | some sid' =>
    if sid' = "" then (ss, csid)
    else
      match ss.findIdx? (fun r => r.session_id = sid') with
      | none =>
        let t := jsOrStr title (jsOrStr (some (userText.take 12 ++ "...")) "新会话")
        ({ session_id := sid', title := t } :: ss, some sid')
      | some i =>
        match title with
        | some t =>
          if t = "" then (ss, some sid')
          else (ss.modify (fun r => { r with title := t }) i, some sid')
        | none => (ss, some sid')

/-- The `onChunk` callback of `handleSendMessage` in `PptPreview.vue`:
dispatch one decoded event on the event's `type`. -/
def applyEvent (s : TurnState) (data : EventRecord) : TurnState :=
  let eventType := data.type
  if eventType = "error" then
    { s with errorMsg := some (jsOrStr data.content "发送消息失败") }
  else if eventType = "start" then
    let p := reconcileSession s.sessions s.userText s.currentSessionId
      data.session_id data.title
    { s with sessions := p.1, currentSessionId := p.2 }
  else if eventType = "thinking" then
    let s1 := { s with currentThinking := s.currentThinking ++ data.content.getD "" }
    let s2 := addBlock "thinking" { content := data.content.getD "" } s1
    updateAssistant s2 (fun m => { m with thinking := s1.currentThinking })
  else if eventType = "thinking_end" then
    if truthyNum data.duration then updateThinkingDuration s (data.duration.getD ⟨0, 0⟩)
    else s
  else if eventType = "content" then
    let s1 := { s with currentContent := s.currentContent ++ data.content.getD "" }
    let s2 := addBlock "content" { content := data.content.getD "" } s1
    updateAssistant s2 (fun m => { m with content := s1.currentContent })
  else if eventType = "tool_call" then
    let args := jsOrJson data.arguments (Json.obj [])
    let tc : ToolCall :=
      { tool_name := data.tool_name.getD "", arguments := args
        result := "", success := true }
    let s1 := { s with currentToolCalls := s.currentToolCalls ++ [tc] }
    let s2 := addBlock "tool_call"
      { content := "", tool_name := some (data.tool_name.getD "")
        arguments := some args } s1
    updateAssistant s2 (fun m => { m with tool_calls := s1.currentToolCalls })
  else if eventType = "tool_result" then
    if s.currentToolCalls.length > 0 then
      let res := data.result.getD ""
      let suc := data.success != some false
      let s1 := { s with currentToolCalls := setLastToolCall s.currentToolCalls res suc }
      let s2 := addBlock "tool_result"
        { content := res, tool_name := some (data.tool_name.getD "")
          result := some res, success := some suc, duration := data.duration } s1
      updateAssistant s2 (fun m => { m with tool_calls := s1.currentToolCalls })
    else s
  else if eventType = "done" then
    let finalContent := jsOrStr data.content s.currentContent
    let s1 :=
      if s.assistantCreated then
        updateAssistant s (fun m =>
          let blocks :=
            if truthyNum data.thinking_duration then
              match m.blocks.findIdx? (fun b => b.type = "thinking") with
              | some i =>
                m.blocks.modify
                  (fun b => { b with duration := some (data.thinking_duration.getD ⟨0, 0⟩) }) i
              | none => m.blocks
            else m.blocks
          { m with blocks := blocks, content := finalContent,
                   hasCreatedAt := true, loading := false,
                   thinking_duration := jsOrNum data.thinking_duration m.thinking_duration })
      else s
    let p := reconcileSession s1.sessions s1.userText s1.currentSessionId
      data.session_id data.title
    { s1 with sessions := p.1, currentSessionId := p.2 }
  else s

/-- One turn's dispatch of a whole event sequence, from the freshly
submitted state. -/
def runTurn (text : String) (sessions : List SessionRecord)
    (csid : Option String) (events : List EventRecord) : TurnState :=
  events.foldl applyEvent (initState text sessions csid)

/-- The `catch` of `handleSendMessage`: an `AbortError` returns silently;
any other exception removes the turn's assistant message (if one was
created) from the list and surfaces `e.message || '发送消息失败'`. -/
def handleCatch (s : TurnState) (errName errMessage : String) : TurnState :=
  if errName = "AbortError" then s
  else
    let s' :=
      if s.assistantCreated then
        { s with messages := s.messages.filter (fun m => m.id ≠ assistantMsgId) }
      else s
    { s' with errorMsg := some (jsOrStr (some errMessage) "发送消息失败") }

/-- `ChatMessage.vue`'s ordering key `(a.order || 0)`: `addBlock` never
sets an `order` property, so the key reads `undefined || 0 = 0` for every
block. -/
def orderKey (_ : Block) : Nat := 0

/-- `ChatMessage.vue`'s `sortedBlocks`: a stable sort of the message's
blocks by `(a.order || 0) - (b.order || 0)`. -/
def sortedBlocks (blocks : List Block) : List Block :=
  blocks.mergeSort (fun a b => orderKey a ≤ orderKey b)

/-- Shape invariant of a running turn: the user's message sits first, and
the assistant message, once created, is the single later entry carrying
`assistantMsgId`. -/
def Inv (s : TurnState) : Prop :=
  (s.assistantCreated = false ∧ s.messages = [initUserMsg s.userText]) ∨
  (s.assistantCreated = true ∧ ∃ a : Msg,
    s.messages = [initUserMsg s.userText, a] ∧
    a.id = assistantMsgId ∧ a.role = "assistant")

/-! # Theorems -/

/-! ## Frame decoder: line splitting -/

/-- The trailing remainder returned by `splitNl` contains no newline. -/
theorem splitNl_rem (cs : List Char) : ∀ c ∈ (splitNl cs).2, c ≠ '\n' := by
  induction cs with
  | nil => simp [splitNl]
  | cons c cs ih =>
    by_cases hc : c = '\n'
    · simpa [splitNl, hc] using ih
    · rcases h : splitNl cs with ⟨l1, r1⟩
      rw [h] at ih
      rcases l1 with _ | ⟨l, ls⟩ <;> simp_all [splitNl, hc]

/-- A newline-free text is all remainder: no complete line comes out. -/
theorem splitNl_of_no_nl (cs : List Char) (h : ∀ c ∈ cs, c ≠ '\n') :
    splitNl cs = ([], cs) := by
  induction cs with
  | nil => rfl
  | cons c cs ih =>
    have hc : c ≠ '\n' := h c (by simp)
    have ih' := ih (fun x hx => h x (List.mem_cons_of_mem _ hx))
    simp [splitNl, hc, ih']

/-- Splitting is compatible with concatenation: the lines of `a ++ b` are
the lines of `a` followed by the lines of `a`'s remainder prepended to
`b`, with the final remainder taken from the latter. -/
theorem splitNl_append (a b : List Char) :
    splitNl (a ++ b) =
      ((splitNl a).1 ++ (splitNl ((splitNl a).2 ++ b)).1,
       (splitNl ((splitNl a).2 ++ b)).2) := by
  induction a with
  | nil => simp [splitNl]
  | cons c a ih =>
    by_cases hc : c = '\n'
    · subst hc
      simp [splitNl, ih]
    · rcases ha : splitNl a with ⟨l1, r1⟩
      rw [ha] at ih
      rcases l1 with _ | ⟨l, ls⟩
      · have h2 : splitNl (a ++ b) = splitNl (r1 ++ b) := by
          rw [ih]; simp
        have hca : splitNl (c :: a) = ([], c :: r1) := by
          simp [splitNl, hc, ha]
        have hL : splitNl (c :: a ++ b) = splitNl (c :: (r1 ++ b)) := by
          simp only [List.cons_append, splitNl, List.append_eq, h2]
        rw [hL, hca]
        rcases hrb : splitNl (r1 ++ b) with ⟨l2, r2⟩
        rcases l2 with _ | ⟨l2h, l2t⟩ <;>
          simp [splitNl, hc, hrb]
      · have ih' : splitNl (a ++ b)
            = (l :: (ls ++ (splitNl (r1 ++ b)).1), (splitNl (r1 ++ b)).2) := by
          rw [ih]; simp
        have hca : splitNl (c :: a) = ((c :: l) :: ls, r1) := by
          simp [splitNl, hc, ha]
        have hL : splitNl (c :: a ++ b)
            = ((c :: l) :: (ls ++ (splitNl (r1 ++ b)).1), (splitNl (r1 ++ b)).2) := by
          simp only [List.cons_append, splitNl, List.append_eq, ih']
          rw [if_neg hc]
        rw [hL, hca]
        simp

/-- One complete line followed by a newline and the rest of the stream. -/
theorem splitNl_line (x rest : List Char) (hx : ∀ c ∈ x, c ≠ '\n') :
    splitNl (x ++ '\n' :: rest) = (x :: (splitNl rest).1, (splitNl rest).2) := by
  induction x with
  | nil => simp [splitNl]
  | cons c x ih =>
    have hc : c ≠ '\n' := hx c (by simp)
    have ih' := ih (fun a hax => hx a (List.mem_cons_of_mem _ hax))
    simp [splitNl, hc, ih']

/-- The read loop started on a newline-free pending buffer delivers
exactly the parses of the complete lines of the whole remaining text, and
retains the trailing remainder. -/
theorem processStreamFrom_join (chunks : List (List Char)) :
    ∀ buf, (∀ c ∈ buf, c ≠ '\n') →
      processStreamFrom buf chunks =
        ((splitNl (buf ++ chunks.flatten)).1.filterMap parseLine,
         (splitNl (buf ++ chunks.flatten)).2) := by
  induction chunks with
  | nil =>
    intro buf hb
    simp [processStreamFrom, splitNl_of_no_nl _ hb]
  | cons ch rest ih =>
    intro buf _
    have h3 : splitNl (buf ++ (ch ++ rest.flatten))
        = splitNl ((buf ++ ch) ++ rest.flatten) := by
      rw [List.append_assoc]
    have h4 := splitNl_append (buf ++ ch) rest.flatten
    simp only [processStreamFrom, processChunk, List.flatten_cons]
    rw [ih _ (splitNl_rem _), h3, h4]
    simp [List.filterMap_append]

/-- **C6** — For every frame sequence and every way of splitting its text
into chunks at arbitrary offsets, the frame decoder yields the same
ordered sequence of event records as delivering it unchunked; the
trailing remainder after the last line terminator is retained in the
buffer (it contains no terminator) and is never emitted as a record —
the emitted records come exactly from the complete lines. -/
theorem decoder_chunking_invariance (chunks : List (List Char)) :
    processStream chunks = processStream [chunks.flatten] ∧
    (processStream chunks).1 = (splitNl chunks.flatten).1.filterMap parseLine ∧
    (processStream chunks).2 = (splitNl chunks.flatten).2 ∧
    ∀ c ∈ (processStream chunks).2, c ≠ '\n' := by
  have h1 := processStreamFrom_join chunks [] (by simp)
  have h2 := processStreamFrom_join [chunks.flatten] [] (by simp)
  simp only [List.nil_append] at h1
  simp only [List.nil_append, List.flatten_cons, List.flatten_nil,
    List.append_nil] at h2
  refine ⟨?_, ?_, ?_, ?_⟩
  · rw [processStream, processStream, h1, h2]
  · rw [processStream, h1]
  · rw [processStream, h1]
  · rw [processStream, h1]
    exact splitNl_rem _

/-- **C7** — A decode failure on a single `data: ` line is non-fatal: a
stream containing one unparsable line between two valid frames still
yields both valid event records, in order, with the bad line absent from
the output and no error raised. -/
theorem malformed_line_nonfatal (l1 bad l2 : List Char) (j1 j2 : Json)
    (h1 : parseLine l1 = some j1) (hb : parseLine bad = none)
    (h2 : parseLine l2 = some j2)
    (hn1 : ∀ c ∈ l1, c ≠ '\n') (hnb : ∀ c ∈ bad, c ≠ '\n')
    (hn2 : ∀ c ∈ l2, c ≠ '\n') :
    processStream [l1 ++ '\n' :: (bad ++ '\n' :: (l2 ++ ['\n']))]
      = ([j1, j2], []) := by
  have hs : splitNl (l1 ++ '\n' :: (bad ++ '\n' :: (l2 ++ ['\n'])))
      = ([l1, bad, l2], []) := by
    rw [splitNl_line _ _ hn1, splitNl_line _ _ hnb, splitNl_line _ _ hn2]
    rfl
  simp [processStream, processStreamFrom, processChunk, hs, h1, hb, h2]

/-- Witness for C7: a concrete byte stream with the line
`data: {not json` between two valid frames yields exactly the two valid
records. -/
theorem malformed_line_nonfatal_witness :
    processStream [("data: \x7b\"type\":\"thinking\",\"content\":\"a\"\x7d").toList ++
      '\n' :: (("data: \x7bnot json").toList ++
        '\n' :: (("data: \x7b\"type\":\"content\",\"content\":\"b\"\x7d").toList ++ ['\n']))]
    = ([Json.obj [("type", Json.str "thinking"), ("content", Json.str "a")],
        Json.obj [("type", Json.str "content"), ("content", Json.str "b")]], []) :=
  malformed_line_nonfatal _ _ _ _ _ rfl rfl rfl
    (by decide) (by decide) (by decide)

/-! ## Turn dispatcher: the shape invariant and computation lemmas -/

/-- The two message ids of a turn are distinct. -/
theorem user_ne_assistant : userMsgId ≠ assistantMsgId := by decide

/-- Lookup-and-update of the assistant message when it exists. -/
theorem updateAssistant_of_shape (s : TurnState) (a : Msg) (f : Msg → Msg)
    (hm : s.messages = [initUserMsg s.userText, a]) (ha : a.id = assistantMsgId) :
    updateAssistant s f = { s with messages := [initUserMsg s.userText, f a] } := by
  unfold updateAssistant
  rw [hm]
  simp [List.findIdx?_cons, initUserMsg, userMsgId, assistantMsgId, ha, List.modify]

/-- Lookup-and-update of the assistant message before it exists. -/
theorem updateAssistant_of_user (s : TurnState) (f : Msg → Msg)
    (hm : s.messages = [initUserMsg s.userText]) :
    updateAssistant s f = s := by
  unfold updateAssistant
  rw [hm]
  simp [List.findIdx?_cons, initUserMsg, userMsgId, assistantMsgId]

/-- The fields `updateAssistant` never touches. -/
theorem updateAssistant_fields (s : TurnState) (f : Msg → Msg) :
    (updateAssistant s f).sessions = s.sessions ∧
    (updateAssistant s f).userText = s.userText ∧
    (updateAssistant s f).currentSessionId = s.currentSessionId ∧
    (updateAssistant s f).assistantCreated = s.assistantCreated ∧
    (updateAssistant s f).currentContent = s.currentContent ∧
    (updateAssistant s f).currentThinking = s.currentThinking ∧
    (updateAssistant s f).currentToolCalls = s.currentToolCalls ∧
    (updateAssistant s f).errorMsg = s.errorMsg := by
  unfold updateAssistant
  split <;> exact ⟨rfl, rfl, rfl, rfl, rfl, rfl, rfl, rfl⟩

/-- Finding the assistant message when it exists. -/
theorem assistantMsg?_of_shape (s : TurnState) (a : Msg)
    (hm : s.messages = [initUserMsg s.userText, a]) (ha : a.id = assistantMsgId) :
    assistantMsg? s = some a := by
  unfold assistantMsg?
  rw [hm]
  simp [List.find?, initUserMsg, userMsgId, assistantMsgId, ha]

/-- Finding the assistant message before it exists. -/
theorem assistantMsg?_of_user (s : TurnState)
    (hm : s.messages = [initUserMsg s.userText]) :
    assistantMsg? s = none := by
  unfold assistantMsg?
  rw [hm]
  simp [List.find?, initUserMsg, userMsgId, assistantMsgId]

/-- The timeline when the assistant message exists. -/
theorem assistantBlocks_of_shape (s : TurnState) (a : Msg)
    (hm : s.messages = [initUserMsg s.userText, a]) (ha : a.id = assistantMsgId) :
    assistantBlocks s = a.blocks := by
  rw [assistantBlocks, assistantMsg?_of_shape s a hm ha]
  rfl

/-- The timeline before the assistant message exists. -/
theorem assistantBlocks_of_user (s : TurnState)
    (hm : s.messages = [initUserMsg s.userText]) :
    assistantBlocks s = [] := by
  rw [assistantBlocks, assistantMsg?_of_user s hm]
  rfl

/-- The assistant content when the assistant message exists. -/
theorem assistantContent_of_shape (s : TurnState) (a : Msg)
    (hm : s.messages = [initUserMsg s.userText, a]) (ha : a.id = assistantMsgId) :
    assistantContent s = some a.content := by
  rw [assistantContent, assistantMsg?_of_shape s a hm ha]
  rfl

/-- `ensureAssistantMessage` is the identity once the message exists. -/
theorem ensure_of_created (s : TurnState) (h : s.assistantCreated = true) :
    ensureAssistantMessage s = s := by
  simp [ensureAssistantMessage, h]

/-- `ensureAssistantMessage` pushes the placeholder the first time. -/
theorem ensure_of_not (s : TurnState) (h : s.assistantCreated = false) :
    ensureAssistantMessage s =
      { s with messages := s.messages ++ [blankAssistant], assistantCreated := true } := by
  simp [ensureAssistantMessage, h]

/-- The invariant holds at the start of a turn. -/
theorem inv_init (text : String) (ss : List SessionRecord) (csid : Option String) :
    Inv (initState text ss csid) :=
  Or.inl ⟨rfl, rfl⟩

/-- The invariant only reads `messages`, `assistantCreated` and `userText`. -/
theorem inv_of_fields (s s' : TurnState) (h : Inv s)
    (hm : s'.messages = s.messages) (hac : s'.assistantCreated = s.assistantCreated)
    (hut : s'.userText = s.userText) : Inv s' := by
  unfold Inv at h ⊢
  rw [hm, hac, hut]
  exact h

/-- `updateAssistant` preserves the invariant when the update keeps the
message's id and role. -/
theorem inv_updateAssistant (s : TurnState) (f : Msg → Msg) (h : Inv s)
    (hid : ∀ m, (f m).id = m.id) (hrole : ∀ m, (f m).role = m.role) :
    Inv (updateAssistant s f) := by
  rcases h with ⟨hc, hm⟩ | ⟨hc, a, hm, ha, hr⟩
  · rw [updateAssistant_of_user s f hm]
    exact Or.inl ⟨hc, hm⟩
  · rw [updateAssistant_of_shape s a f hm ha]
    exact Or.inr ⟨hc, f a, rfl, by rw [hid, ha], by rw [hrole, hr]⟩

/-- `ensureAssistantMessage` preserves the invariant. -/
theorem inv_ensure (s : TurnState) (h : Inv s) : Inv (ensureAssistantMessage s) := by
  rcases h with ⟨hc, hm⟩ | ⟨hc, a, hm, ha, hr⟩
  · rw [ensure_of_not s hc]
    exact Or.inr ⟨rfl, blankAssistant, by rw [hm]; rfl, rfl, rfl⟩
  · rw [ensure_of_created s hc]
    exact Or.inr ⟨hc, a, hm, ha, hr⟩

/-- `addBlock` preserves the invariant. -/
theorem inv_addBlock (ty : String) (d : BlockData) (s : TurnState) (h : Inv s) :
    Inv (addBlock ty d s) := by
  have h' := inv_ensure s h
  simp only [addBlock]
  split
  · split
    · exact inv_updateAssistant _ _ h' (fun m => rfl) (fun m => rfl)
    · exact inv_updateAssistant _ _ h' (fun m => rfl) (fun m => rfl)
  · exact inv_updateAssistant _ _ h' (fun m => rfl) (fun m => rfl)

/-- `updateThinkingDuration` preserves the invariant. -/
theorem inv_updateThinkingDuration (s : TurnState) (d : JNum) (h : Inv s) :
    Inv (updateThinkingDuration s d) :=
  inv_updateAssistant _ _ h (fun _ => rfl) (fun _ => rfl)

/-- Overwriting the session fields preserves the invariant. -/
theorem inv_sessions_update (s : TurnState) (h : Inv s)
    (ss' : List SessionRecord) (cs' : Option String) :
    Inv { s with sessions := ss', currentSessionId := cs' } :=
  inv_of_fields s _ h rfl rfl rfl

/-- Every dispatch step preserves the invariant. -/
theorem inv_applyEvent (s : TurnState) (e : EventRecord) (h : Inv s) :
    Inv (applyEvent s e) := by
  unfold applyEvent
  by_cases h1 : e.type = "error"
  · simp only [h1, if_pos rfl]
    exact inv_of_fields s _ h rfl rfl rfl
  rw [if_neg h1]
  by_cases h2 : e.type = "start"
  · simp only [h2, if_pos rfl]
    exact inv_sessions_update s h _ _
  rw [if_neg h2]
  by_cases h3 : e.type = "thinking"
  · simp only [h3, if_pos rfl]
    refine inv_updateAssistant _ _ ?_ (fun m => rfl) (fun m => rfl)
    refine inv_addBlock _ _ _ ?_
    exact inv_of_fields s _ h rfl rfl rfl
  rw [if_neg h3]
  by_cases h4 : e.type = "thinking_end"
  · simp only [h4, if_pos rfl]
    by_cases hd : truthyNum e.duration = true
    · rw [if_pos hd]
      exact inv_updateThinkingDuration _ _ h
    · rw [if_neg hd]
      exact h
  rw [if_neg h4]
  by_cases h5 : e.type = "content"
  · simp only [h5, if_pos rfl]
    refine inv_updateAssistant _ _ ?_ (fun m => rfl) (fun m => rfl)
    refine inv_addBlock _ _ _ ?_
    exact inv_of_fields s _ h rfl rfl rfl
  rw [if_neg h5]
  by_cases h6 : e.type = "tool_call"
  · simp only [h6, if_pos rfl]
    refine inv_updateAssistant _ _ ?_ (fun m => rfl) (fun m => rfl)
    refine inv_addBlock _ _ _ ?_
    exact inv_of_fields s _ h rfl rfl rfl
  rw [if_neg h6]
  by_cases h7 : e.type = "tool_result"
  · simp only [h7, if_pos rfl]
    by_cases htc : s.currentToolCalls.length > 0
    · rw [if_pos htc]
      refine inv_updateAssistant _ _ ?_ (fun m => rfl) (fun m => rfl)
      refine inv_addBlock _ _ _ ?_
      exact inv_of_fields s _ h rfl rfl rfl
    · rw [if_neg htc]
      exact h
  rw [if_neg h7]
  by_cases h8 : e.type = "done"
  · simp only [h8, if_pos rfl]
    by_cases hac : s.assistantCreated = true
    · simp only [hac, if_true]
      refine inv_sessions_update _ ?_ _ _
      exact inv_updateAssistant _ _ h (fun m => rfl) (fun m => rfl)
    · have hac' : s.assistantCreated = false := by
        simpa using hac
      simp only [hac', Bool.false_eq_true, if_false, if_true]
      exact inv_of_fields s _ h rfl hac'.symm rfl
  rw [if_neg h8]
  exact h

/-- The invariant holds after any run of a turn. -/
theorem inv_runTurn (text : String) (ss : List SessionRecord)
    (csid : Option String) (es : List EventRecord) :
    Inv (runTurn text ss csid es) := by
  unfold runTurn
  induction es using List.reverseRecOn with
  | nil => exact inv_init text ss csid
  | append_singleton es e ih =>
    rw [List.foldl_append]
    exact inv_applyEvent _ e ih

/-! ## Reduction of `applyEvent` per event type -/

/-- Dispatch of an `error` event. -/
theorem applyEvent_error (s : TurnState) (e : EventRecord) (h : e.type = "error") :
    applyEvent s e = { s with errorMsg := some (jsOrStr e.content "发送消息失败") } := by
  unfold applyEvent
  simp only [h, String.reduceEq, if_true, if_false]

/-- Dispatch of a `start` event. -/
theorem applyEvent_start (s : TurnState) (e : EventRecord) (h : e.type = "start") :
    applyEvent s e =
      { s with
        sessions := (reconcileSession s.sessions s.userText s.currentSessionId
          e.session_id e.title).1,
        currentSessionId := (reconcileSession s.sessions s.userText s.currentSessionId
          e.session_id e.title).2 } := by
  unfold applyEvent
  simp only [h, String.reduceEq, if_true, if_false]

/-- Dispatch of a `thinking` event. -/
theorem applyEvent_thinking (s : TurnState) (e : EventRecord) (h : e.type = "thinking") :
    applyEvent s e =
      updateAssistant
        (addBlock "thinking" { content := e.content.getD "" }
          { s with currentThinking := s.currentThinking ++ e.content.getD "" })
        (fun m => { m with thinking := s.currentThinking ++ e.content.getD "" }) := by
  unfold applyEvent
  simp only [h, String.reduceEq, if_true, if_false]

/-- Dispatch of a `thinking_end` event. -/
theorem applyEvent_thinkingEnd (s : TurnState) (e : EventRecord)
    (h : e.type = "thinking_end") :
    applyEvent s e =
      if truthyNum e.duration then updateThinkingDuration s (e.duration.getD ⟨0, 0⟩)
      else s := by
  unfold applyEvent
  simp only [h, String.reduceEq, if_true, if_false]

/-- Dispatch of a `content` event. -/
theorem applyEvent_content (s : TurnState) (e : EventRecord) (h : e.type = "content") :
    applyEvent s e =
      updateAssistant
        (addBlock "content" { content := e.content.getD "" }
          { s with currentContent := s.currentContent ++ e.content.getD "" })
        (fun m => { m with content := s.currentContent ++ e.content.getD "" }) := by
  unfold applyEvent
  simp only [h, String.reduceEq, if_true, if_false]

/-- Dispatch of a `tool_call` event. -/
theorem applyEvent_toolCall (s : TurnState) (e : EventRecord) (h : e.type = "tool_call") :
    applyEvent s e =
      updateAssistant
        (addBlock "tool_call"
          { content := "", tool_name := some (e.tool_name.getD ""),
            arguments := some (jsOrJson e.arguments (Json.obj [])) }
          { s with currentToolCalls := s.currentToolCalls ++
              [{ tool_name := e.tool_name.getD "",
                 arguments := jsOrJson e.arguments (Json.obj []),
                 result := "", success := true }] })
        (fun m => { m with tool_calls := s.currentToolCalls ++
            [{ tool_name := e.tool_name.getD "",
               arguments := jsOrJson e.arguments (Json.obj []),
               result := "", success := true }] }) := by
  unfold applyEvent
  simp only [h, String.reduceEq, if_true, if_false]

/-- Dispatch of a `tool_result` event. -/
theorem applyEvent_toolResult (s : TurnState) (e : EventRecord)
    (h : e.type = "tool_result") :
    applyEvent s e =
      if s.currentToolCalls.length > 0 then
        updateAssistant
          (addBlock "tool_result"
            { content := e.result.getD "", tool_name := some (e.tool_name.getD ""),
              result := some (e.result.getD ""),
              success := some (e.success != some false), duration := e.duration }
            { s with currentToolCalls := setLastToolCall s.currentToolCalls (e.result.getD "") (e.success != some false) })
          (fun m => { m with tool_calls := setLastToolCall s.currentToolCalls (e.result.getD "") (e.success != some false) })
      else s := by
  unfold applyEvent
  simp only [h, String.reduceEq, if_true, if_false]

/-- The message rewrite the `done` branch performs on the assistant
message. -/
theorem applyEvent_done_created (s : TurnState) (e : EventRecord)
    (h : e.type = "done") (hac : s.assistantCreated = true) :
    applyEvent s e =
      { updateAssistant s (fun m =>
          { m with
            blocks :=
              if truthyNum e.thinking_duration then
                match m.blocks.findIdx? (fun b => b.type = "thinking") with
                | some i =>
                  m.blocks.modify
                    (fun b => { b with
                      duration := some (e.thinking_duration.getD ⟨0, 0⟩) }) i
                | none => m.blocks
              else m.blocks
            content := jsOrStr e.content s.currentContent,
            hasCreatedAt := true, loading := false,
            thinking_duration := jsOrNum e.thinking_duration m.thinking_duration }) with
        sessions := (reconcileSession s.sessions s.userText s.currentSessionId
          e.session_id e.title).1,
        currentSessionId := (reconcileSession s.sessions s.userText s.currentSessionId
          e.session_id e.title).2 } := by
  unfold applyEvent
  simp only [h, hac, String.reduceEq, if_true, if_false]
  rw [(updateAssistant_fields s _).1, (updateAssistant_fields s _).2.1,
      (updateAssistant_fields s _).2.2.1]

/-- The `done` branch before any assistant message exists touches only
the session fields. -/
theorem applyEvent_done_not_created (s : TurnState) (e : EventRecord)
    (h : e.type = "done") (hac : s.assistantCreated = false) :
    applyEvent s e =
      { s with
        sessions := (reconcileSession s.sessions s.userText s.currentSessionId
          e.session_id e.title).1,
        currentSessionId := (reconcileSession s.sessions s.userText s.currentSessionId
          e.session_id e.title).2 } := by
  unfold applyEvent
  simp only [h, hac, String.reduceEq, Bool.false_eq_true, if_true, if_false]

/-! ## Characterisation of the state helpers -/

/-- A point update preserves `countP` when the update preserves the
predicate. -/
theorem countP_modify {α : Type} (p : α → Bool) (f : α → α)
    (hf : ∀ x, p (f x) = p x) (l : List α) (i : Nat) :
    (List.modify f i l).countP p = l.countP p := by
  induction l generalizing i with
  | nil => cases i <;> rfl
  | cons x xs ih =>
    cases i with
    | zero =>
      show (f x :: xs).countP p = (x :: xs).countP p
      rw [List.countP_cons, List.countP_cons, hf]
    | succ i =>
      show (x :: List.modify f i xs).countP p = (x :: xs).countP p
      rw [List.countP_cons, List.countP_cons, ih]

/-- A point update is a `set` at the element found there. -/
theorem modify_eq_set_of_mem {α : Type} (f : α → α) (l : List α) (i : Nat)
    (x : α) (hx : l.get? i = some x) :
    List.modify f i l = l.set i (f x) := by
  induction l generalizing i with
  | nil => simp [List.get?] at hx
  | cons y ys ih =>
    cases i with
    | zero =>
      simp only [List.get?] at hx
      cases hx
      rfl
    | succ i =>
      simp only [List.get?] at hx
      show y :: List.modify f i ys = y :: ys.set i (f x)
      rw [ih i hx]

/-- `ensureAssistantMessage` never changes the timeline. -/
theorem assistantBlocks_ensure (s : TurnState) (h : Inv s) :
    assistantBlocks (ensureAssistantMessage s) = assistantBlocks s := by
  rcases h with ⟨hc, hm⟩ | ⟨hc, a, hm, ha, _⟩
  · rw [ensure_of_not s hc, assistantBlocks_of_user s hm]
    rw [assistantBlocks_of_shape _ blankAssistant (by rw [hm]; rfl) rfl]
    rfl
  · rw [ensure_of_created s hc]

/-- `addBlock` on an assistant message with an empty timeline pushes the
fresh block. -/
theorem addBlock_push_of_none (ty : String) (d : BlockData) (s : TurnState) (a : Msg)
    (hm : s.messages = [initUserMsg s.userText, a]) (ha : a.id = assistantMsgId)
    (hac : s.assistantCreated = true) (hl : a.blocks.getLast? = none) :
    addBlock ty d s =
      { s with messages := [initUserMsg s.userText,
          { a with blocks := a.blocks ++ [Block.ofData ty d] }] } := by
  simp only [addBlock, ensure_of_created s hac]
  rw [assistantBlocks_of_shape s a hm ha, hl]
  exact updateAssistant_of_shape s a _ hm ha

/-- `addBlock` pushes a fresh block when the last block has another kind. -/
theorem addBlock_push_of_other (ty : String) (d : BlockData) (s : TurnState)
    (a : Msg) (cb : Block)
    (hm : s.messages = [initUserMsg s.userText, a]) (ha : a.id = assistantMsgId)
    (hac : s.assistantCreated = true) (hl : a.blocks.getLast? = some cb)
    (hty : cb.type ≠ ty) :
    addBlock ty d s =
      { s with messages := [initUserMsg s.userText,
          { a with blocks := a.blocks ++ [Block.ofData ty d] }] } := by
  simp only [addBlock, ensure_of_created s hac]
  rw [assistantBlocks_of_shape s a hm ha, hl]
  exact (if_neg hty).trans (updateAssistant_of_shape s a _ hm ha)

/-- `addBlock` coalesces into the last block when it has the same kind. -/
theorem addBlock_coalesce (ty : String) (d : BlockData) (s : TurnState)
    (a : Msg) (cb : Block)
    (hm : s.messages = [initUserMsg s.userText, a]) (ha : a.id = assistantMsgId)
    (hac : s.assistantCreated = true) (hl : a.blocks.getLast? = some cb)
    (hty : cb.type = ty) :
    addBlock ty d s =
      { s with messages := [initUserMsg s.userText,
          { a with blocks :=
              a.blocks.set (a.blocks.length - 1) (mergeBlock cb d) }] } := by
  simp only [addBlock, ensure_of_created s hac]
  rw [assistantBlocks_of_shape s a hm ha, hl]
  exact (if_pos hty).trans (updateAssistant_of_shape s a _ hm ha)

/-- Full effect of `addBlock` before the assistant message exists: the
placeholder is pushed and receives the fresh block. -/
theorem addBlock_of_user (ty : String) (d : BlockData) (s : TurnState)
    (hm : s.messages = [initUserMsg s.userText])
    (hac : s.assistantCreated = false) :
    addBlock ty d s =
      { s with
        messages := [initUserMsg s.userText,
          { blankAssistant with blocks := [Block.ofData ty d] }],
        assistantCreated := true } := by
  simp only [addBlock, ensure_of_not s hac]
  have hm' : ({ s with messages := s.messages ++ [blankAssistant], assistantCreated := true } : TurnState).messages = [initUserMsg s.userText, blankAssistant] := by
    rw [hm]; rfl
  rw [assistantBlocks_of_shape _ blankAssistant hm' rfl]
  show updateAssistant _ _ = _
  rw [updateAssistant_of_shape _ blankAssistant _ hm' rfl]
  exact rfl

/-- Full effect of `updateThinkingDuration` once the assistant message
exists: the first `thinking` block gets the duration. -/
theorem updateThinkingDuration_of_shape (s : TurnState) (a : Msg) (d : JNum)
    (hm : s.messages = [initUserMsg s.userText, a]) (ha : a.id = assistantMsgId) :
    updateThinkingDuration s d =
      { s with messages := [initUserMsg s.userText,
          { a with
            blocks :=
              (match a.blocks.findIdx? (fun b => b.type = "thinking") with
               | some i => a.blocks.modify (fun b => { b with duration := some d }) i
               | none => a.blocks),
            thinking_duration := some d }] } := by
  unfold updateThinkingDuration
  rw [updateAssistant_of_shape s a _ hm ha]

/-- `updateThinkingDuration` is a no-op before the assistant message
exists. -/
theorem updateThinkingDuration_of_user (s : TurnState) (d : JNum)
    (hm : s.messages = [initUserMsg s.userText]) :
    updateThinkingDuration s d = s := by
  unfold updateThinkingDuration
  rw [updateAssistant_of_user s _ hm]

/-- An event of unknown type is ignored. -/
theorem applyEvent_unknown (s : TurnState) (e : EventRecord)
    (h1 : e.type ≠ "error") (h2 : e.type ≠ "start") (h3 : e.type ≠ "thinking")
    (h4 : e.type ≠ "thinking_end") (h5 : e.type ≠ "content")
    (h6 : e.type ≠ "tool_call") (h7 : e.type ≠ "tool_result")
    (h8 : e.type ≠ "done") :
    applyEvent s e = s := by
  unfold applyEvent
  rw [if_neg h1, if_neg h2, if_neg h3, if_neg h4, if_neg h5, if_neg h6,
      if_neg h7, if_neg h8]

/-! ## Timeline evolution -/

/-- The timeline read-out only depends on the message list. -/
theorem assistantBlocks_congr (s s' : TurnState) (hm : s'.messages = s.messages) :
    assistantBlocks s' = assistantBlocks s := by
  unfold assistantBlocks assistantMsg?
  rw [hm]

/-- The renderer's stable sort on the absent `order` key is the identity:
every key is `0`, so the timeline is displayed exactly in creation order. -/
theorem sortedBlocks_eq (l : List Block) : sortedBlocks l = l := by
  apply List.mergeSort_of_sorted
  induction l with
  | nil => exact List.Pairwise.nil
  | cons b t ih => exact List.Pairwise.cons (fun _ _ => by simp [orderKey]) ih

/-- A found index is in bounds. -/
theorem findIdx?_lt {α : Type} (p : α → Bool) (l : List α) (i : Nat)
    (h : List.findIdx? p l = some i) : i < l.length :=
  (List.findIdx?_eq_some_iff_findIdx_eq.mp h).1

/-- A list with a last element is nonempty. -/
theorem length_pos_of_getLast? {α : Type} (l : List α) (x : α)
    (h : l.getLast? = some x) : 0 < l.length := by
  cases l with
  | nil => simp at h
  | cons y ys => simp

/-- Effect on the timeline of an `addBlock` followed by a field update
that keeps the blocks: either a fresh block is appended, or the last
block is rewritten in place by `mergeBlock`. -/
theorem blocks_addBlock_then (ty : String) (d : BlockData) (s1 : TurnState)
    (f : Msg → Msg) (hf : ∀ m, (f m).blocks = m.blocks)
    (hfid : ∀ m, (f m).id = m.id) (h : Inv s1) :
    ((assistantBlocks s1).getLast?.map Block.type ≠ some ty ∧
      assistantBlocks (updateAssistant (addBlock ty d s1) f)
        = assistantBlocks s1 ++ [Block.ofData ty d]) ∨
    (∃ cb, (assistantBlocks s1).getLast? = some cb ∧ cb.type = ty ∧
      assistantBlocks (updateAssistant (addBlock ty d s1) f)
        = (assistantBlocks s1).set ((assistantBlocks s1).length - 1)
            (mergeBlock cb d)) := by
  rcases h with ⟨hc, hm⟩ | ⟨hc, a, hm, ha, _⟩
  · left
    refine ⟨by rw [assistantBlocks_of_user s1 hm]; simp, ?_⟩
    rw [addBlock_of_user ty d s1 hm hc]
    set a' : Msg := { blankAssistant with blocks := [Block.ofData ty d] } with ha'
    have hm2 : ({ s1 with messages := [initUserMsg s1.userText, a'], assistantCreated := true } : TurnState).messages = [initUserMsg s1.userText, a'] := rfl
    have hid' : a'.id = assistantMsgId := rfl
    rw [updateAssistant_of_shape _ a' f hm2 hid']
    rw [assistantBlocks_of_shape _ (f a') rfl (by rw [hfid]; exact hid')]
    rw [assistantBlocks_of_user s1 hm, hf]
    exact rfl
  · rcases hl : a.blocks.getLast? with _ | cb
    · left
      refine ⟨by rw [assistantBlocks_of_shape s1 a hm ha, hl]; simp, ?_⟩
      rw [addBlock_push_of_none ty d s1 a hm ha hc hl]
      set a' : Msg := { a with blocks := a.blocks ++ [Block.ofData ty d] } with ha'
      have hm2 : ({ s1 with messages := [initUserMsg s1.userText, a'] } : TurnState).messages = [initUserMsg s1.userText, a'] := rfl
      have hid' : a'.id = assistantMsgId := ha
      rw [updateAssistant_of_shape _ a' f hm2 hid']
      rw [assistantBlocks_of_shape _ (f a') rfl (by rw [hfid]; exact hid'), hf]
      rw [assistantBlocks_of_shape s1 a hm ha]
    · by_cases hty : cb.type = ty
      · right
        refine ⟨cb, by rw [assistantBlocks_of_shape s1 a hm ha]; exact hl, hty, ?_⟩
        rw [addBlock_coalesce ty d s1 a cb hm ha hc hl hty]
        set a' : Msg := { a with blocks := a.blocks.set (a.blocks.length - 1) (mergeBlock cb d) } with ha'
        have hm2 : ({ s1 with messages := [initUserMsg s1.userText, a'] } : TurnState).messages = [initUserMsg s1.userText, a'] := rfl
        have hid' : a'.id = assistantMsgId := ha
        rw [updateAssistant_of_shape _ a' f hm2 hid']
        rw [assistantBlocks_of_shape _ (f a') rfl (by rw [hfid]; exact hid'), hf]
        rw [assistantBlocks_of_shape s1 a hm ha]
      · left
        refine ⟨by
          rw [assistantBlocks_of_shape s1 a hm ha, hl]
          simp [hty], ?_⟩
        rw [addBlock_push_of_other ty d s1 a cb hm ha hc hl hty]
        set a' : Msg := { a with blocks := a.blocks ++ [Block.ofData ty d] } with ha'
        have hm2 : ({ s1 with messages := [initUserMsg s1.userText, a'] } : TurnState).messages = [initUserMsg s1.userText, a'] := rfl
        have hid' : a'.id = assistantMsgId := ha
        rw [updateAssistant_of_shape _ a' f hm2 hid']
        rw [assistantBlocks_of_shape _ (f a') rfl (by rw [hfid]; exact hid'), hf]
        rw [assistantBlocks_of_shape s1 a hm ha]

/-- An in-place point update whose function preserves the block kind is a
`set` with an element of the same kind. -/
theorem modify_case (bs : List Block) (g : Block → Block)
    (hg : ∀ b, (g b).type = b.type) (i : Nat) (hi : i < bs.length) :
    ∃ nb, (bs[i]?).map Block.type = some nb.type ∧
      List.modify g i bs = bs.set i nb := by
  have hx : bs.get? i = some bs[i] := by
    simp [List.get?_eq_getElem?, List.getElem?_eq_getElem hi]
  refine ⟨g bs[i], ?_, modify_eq_set_of_mem g bs i bs[i] hx⟩
  rw [List.getElem?_eq_getElem hi]
  simp [hg]

/-- The "append or rewrite in place" trichotomy for the block-producing
branches. -/
theorem blocks_step_addBlock (s s1 : TurnState) (ty : String) (d : BlockData)
    (f : Msg → Msg) (hm1 : s1.messages = s.messages) (hInv1 : Inv s1)
    (hf : ∀ m, (f m).blocks = m.blocks) (hfid : ∀ m, (f m).id = m.id) :
    assistantBlocks (updateAssistant (addBlock ty d s1) f) = assistantBlocks s ∨
    (∃ b, assistantBlocks (updateAssistant (addBlock ty d s1) f)
        = assistantBlocks s ++ [b]) ∨
    (∃ i nb, i < (assistantBlocks s).length ∧
      ((assistantBlocks s)[i]?).map Block.type = some nb.type ∧
      assistantBlocks (updateAssistant (addBlock ty d s1) f)
        = (assistantBlocks s).set i nb) := by
  have hcongr := assistantBlocks_congr s s1 hm1
  rcases blocks_addBlock_then ty d s1 f hf hfid hInv1 with ⟨_, hL⟩ | ⟨cb, hlast, hty, hR⟩
  · right; left
    exact ⟨_, by rw [hL, hcongr]⟩
  · right; right
    rw [hcongr] at hlast hR
    have hpos := length_pos_of_getLast? _ _ hlast
    refine ⟨(assistantBlocks s).length - 1, mergeBlock cb d, by omega, ?_, hR⟩
    rw [← List.getLast?_eq_getElem?, hlast]
    rfl

/-- One dispatch step either leaves the timeline unchanged, appends one
block at the end, or rewrites one existing block in place without
changing its kind — positions of existing blocks are never reassigned. -/
theorem blocks_step (s : TurnState) (e : EventRecord) (h : Inv s) :
    assistantBlocks (applyEvent s e) = assistantBlocks s ∨
    (∃ b, assistantBlocks (applyEvent s e) = assistantBlocks s ++ [b]) ∨
    (∃ i nb, i < (assistantBlocks s).length ∧
      ((assistantBlocks s)[i]?).map Block.type = some nb.type ∧
      assistantBlocks (applyEvent s e) = (assistantBlocks s).set i nb) := by
  by_cases h1 : e.type = "error"
  · left
    rw [applyEvent_error s e h1]
    exact assistantBlocks_congr s _ rfl
  by_cases h2 : e.type = "start"
  · left
    rw [applyEvent_start s e h2]
    exact assistantBlocks_congr s _ rfl
  by_cases h3 : e.type = "thinking"
  · rw [applyEvent_thinking s e h3]
    exact blocks_step_addBlock s _ _ _ _ rfl
      (inv_of_fields s _ h rfl rfl rfl) (fun _ => rfl) (fun _ => rfl)
  by_cases h5 : e.type = "content"
  · rw [applyEvent_content s e h5]
    exact blocks_step_addBlock s _ _ _ _ rfl
      (inv_of_fields s _ h rfl rfl rfl) (fun _ => rfl) (fun _ => rfl)
  by_cases h6 : e.type = "tool_call"
  · rw [applyEvent_toolCall s e h6]
    exact blocks_step_addBlock s _ _ _ _ rfl
      (inv_of_fields s _ h rfl rfl rfl) (fun _ => rfl) (fun _ => rfl)
  by_cases h7 : e.type = "tool_result"
  · rw [applyEvent_toolResult s e h7]
    by_cases htc : s.currentToolCalls.length > 0
    · rw [if_pos htc]
      exact blocks_step_addBlock s _ _ _ _ rfl
        (inv_of_fields s _ h rfl rfl rfl) (fun _ => rfl) (fun _ => rfl)
    · rw [if_neg htc]
      left; rfl
  by_cases h4 : e.type = "thinking_end"
  · rw [applyEvent_thinkingEnd s e h4]
    by_cases hd : truthyNum e.duration = true
    · rw [if_pos hd]
      rcases h with ⟨hc, hm⟩ | ⟨hc, a, hm, ha, _⟩
      · left
        rw [updateThinkingDuration_of_user s _ hm]
      · rw [updateThinkingDuration_of_shape s a _ hm ha]
        have hbs := assistantBlocks_of_shape s a hm ha
        rcases hfi : a.blocks.findIdx? (fun b => b.type = "thinking") with _ | i
        · left
          have hX : assistantBlocks { s with messages := [initUserMsg s.userText,
              { a with
                blocks :=
                  (match a.blocks.findIdx? (fun b => b.type = "thinking") with
                   | some i => a.blocks.modify (fun b => { b with duration := some (e.duration.getD ⟨0, 0⟩) }) i
                   | none => a.blocks),
                thinking_duration := some (e.duration.getD ⟨0, 0⟩) }] }
              = ({ a with
                blocks :=
                  (match a.blocks.findIdx? (fun b => b.type = "thinking") with
                   | some i => a.blocks.modify (fun b => { b with duration := some (e.duration.getD ⟨0, 0⟩) }) i
                   | none => a.blocks),
                thinking_duration := some (e.duration.getD ⟨0, 0⟩) } : Msg).blocks :=
            assistantBlocks_of_shape _ _ rfl ha
          rw [hX, hfi, hbs]
        · have hi := findIdx?_lt _ _ _ hfi
          obtain ⟨nb, hmap, hset⟩ := modify_case a.blocks
            (fun b => { b with duration := some (e.duration.getD ⟨0, 0⟩) })
            (fun _ => rfl) i hi
          right; right
          refine ⟨i, nb, by rw [hbs]; exact hi, by rw [hbs]; exact hmap, ?_⟩
          have hX : assistantBlocks { s with messages := [initUserMsg s.userText,
              { a with
                blocks :=
                  (match a.blocks.findIdx? (fun b => b.type = "thinking") with
                   | some i => a.blocks.modify (fun b => { b with duration := some (e.duration.getD ⟨0, 0⟩) }) i
                   | none => a.blocks),
                thinking_duration := some (e.duration.getD ⟨0, 0⟩) }] }
              = ({ a with
                blocks :=
                  (match a.blocks.findIdx? (fun b => b.type = "thinking") with
                   | some i => a.blocks.modify (fun b => { b with duration := some (e.duration.getD ⟨0, 0⟩) }) i
                   | none => a.blocks),
                thinking_duration := some (e.duration.getD ⟨0, 0⟩) } : Msg).blocks :=
            assistantBlocks_of_shape _ _ rfl ha
          rw [hX, hfi, hbs]
          exact hset
    · rw [if_neg hd]
      left; rfl
  by_cases h8 : e.type = "done"
  · by_cases hac : s.assistantCreated = true
    · rcases h with ⟨hc, _⟩ | ⟨_, a, hm, ha, _⟩
      · rw [hac] at hc
        exact absurd hc (by simp)
      · have hbs := assistantBlocks_of_shape s a hm ha
        have hX : assistantBlocks (applyEvent s e)
            = (if truthyNum e.thinking_duration then
                (match a.blocks.findIdx? (fun b => b.type = "thinking") with
                 | some i =>
                   a.blocks.modify
                     (fun b => { b with duration := some (e.thinking_duration.getD ⟨0, 0⟩) }) i
                 | none => a.blocks)
              else a.blocks) := by
          rw [applyEvent_done_created s e h8 hac,
              updateAssistant_of_shape s a _ hm ha]
          exact assistantBlocks_of_shape _
            ({ a with
               blocks :=
                 if truthyNum e.thinking_duration then
                   match a.blocks.findIdx? (fun b => b.type = "thinking") with
                   | some i =>
                     a.blocks.modify
                       (fun b => { b with duration := some (e.thinking_duration.getD ⟨0, 0⟩) }) i
                   | none => a.blocks
                 else a.blocks,
               content := jsOrStr e.content s.currentContent,
               hasCreatedAt := true, loading := false,
               thinking_duration := jsOrNum e.thinking_duration a.thinking_duration })
            rfl ha
        rw [hX]
        by_cases htd : truthyNum e.thinking_duration = true
        · rw [if_pos htd]
          rcases hfi : a.blocks.findIdx? (fun b => b.type = "thinking") with _ | i
          · left
            rw [hfi, hbs]
          · have hi := findIdx?_lt _ _ _ hfi
            obtain ⟨nb, hmap, hset⟩ := modify_case a.blocks
              (fun b => { b with duration := some (e.thinking_duration.getD ⟨0, 0⟩) })
              (fun _ => rfl) i hi
            right; right
            refine ⟨i, nb, by rw [hbs]; exact hi, by rw [hbs]; exact hmap, ?_⟩
            rw [hfi, hbs]
            exact hset
        · rw [if_neg htd]
          left
          rw [hbs]
    · have hac' : s.assistantCreated = false := by
        simpa using hac
      rw [applyEvent_done_not_created s e h8 hac']
      left
      exact assistantBlocks_congr s _ rfl
  · rw [applyEvent_unknown s e h1 h2 h3 h4 h5 h6 h7 h8]
    left; rfl

/-! ## Field preservation -/

/-- The fields `ensureAssistantMessage` never touches. -/
theorem ensure_fields (s : TurnState) :
    (ensureAssistantMessage s).sessions = s.sessions ∧
    (ensureAssistantMessage s).userText = s.userText ∧
    (ensureAssistantMessage s).currentSessionId = s.currentSessionId ∧
    (ensureAssistantMessage s).currentContent = s.currentContent ∧
    (ensureAssistantMessage s).currentThinking = s.currentThinking ∧
    (ensureAssistantMessage s).currentToolCalls = s.currentToolCalls ∧
    (ensureAssistantMessage s).errorMsg = s.errorMsg := by
  unfold ensureAssistantMessage
  split <;> exact ⟨rfl, rfl, rfl, rfl, rfl, rfl, rfl⟩

/-- The fields `addBlock` never touches. -/
theorem addBlock_fields (ty : String) (d : BlockData) (s : TurnState) :
    (addBlock ty d s).sessions = s.sessions ∧
    (addBlock ty d s).userText = s.userText ∧
    (addBlock ty d s).currentSessionId = s.currentSessionId ∧
    (addBlock ty d s).currentContent = s.currentContent ∧
    (addBlock ty d s).currentThinking = s.currentThinking ∧
    (addBlock ty d s).currentToolCalls = s.currentToolCalls ∧
    (addBlock ty d s).errorMsg = s.errorMsg := by
  have he := ensure_fields s
  simp only [addBlock]
  split
  · split <;>
      exact ⟨((updateAssistant_fields _ _).1).trans he.1,
        ((updateAssistant_fields _ _).2.1).trans he.2.1,
        ((updateAssistant_fields _ _).2.2.1).trans he.2.2.1,
        ((updateAssistant_fields _ _).2.2.2.2.1).trans he.2.2.2.1,
        ((updateAssistant_fields _ _).2.2.2.2.2.1).trans he.2.2.2.2.1,
        ((updateAssistant_fields _ _).2.2.2.2.2.2.1).trans he.2.2.2.2.2.1,
        ((updateAssistant_fields _ _).2.2.2.2.2.2.2).trans he.2.2.2.2.2.2⟩
  · exact ⟨((updateAssistant_fields _ _).1).trans he.1,
      ((updateAssistant_fields _ _).2.1).trans he.2.1,
      ((updateAssistant_fields _ _).2.2.1).trans he.2.2.1,
      ((updateAssistant_fields _ _).2.2.2.2.1).trans he.2.2.2.1,
      ((updateAssistant_fields _ _).2.2.2.2.2.1).trans he.2.2.2.2.1,
      ((updateAssistant_fields _ _).2.2.2.2.2.2.1).trans he.2.2.2.2.2.1,
      ((updateAssistant_fields _ _).2.2.2.2.2.2.2).trans he.2.2.2.2.2.2⟩

/-- No dispatch step rewrites the submitted user text. -/
theorem applyEvent_userText (s : TurnState) (e : EventRecord) :
    (applyEvent s e).userText = s.userText := by
  by_cases h1 : e.type = "error"
  · rw [applyEvent_error s e h1]
  by_cases h2 : e.type = "start"
  · rw [applyEvent_start s e h2]
  by_cases h3 : e.type = "thinking"
  · rw [applyEvent_thinking s e h3]
    rw [(updateAssistant_fields _ _).2.1, (addBlock_fields _ _ _).2.1]
  by_cases h5 : e.type = "content"
  · rw [applyEvent_content s e h5]
    rw [(updateAssistant_fields _ _).2.1, (addBlock_fields _ _ _).2.1]
  by_cases h6 : e.type = "tool_call"
  · rw [applyEvent_toolCall s e h6]
    rw [(updateAssistant_fields _ _).2.1, (addBlock_fields _ _ _).2.1]
  by_cases h7 : e.type = "tool_result"
  · rw [applyEvent_toolResult s e h7]
    by_cases htc : s.currentToolCalls.length > 0
    · rw [if_pos htc]
      rw [(updateAssistant_fields _ _).2.1, (addBlock_fields _ _ _).2.1]
    · rw [if_neg htc]
  by_cases h4 : e.type = "thinking_end"
  · rw [applyEvent_thinkingEnd s e h4]
    by_cases hd : truthyNum e.duration = true
    · rw [if_pos hd]
      exact (updateAssistant_fields _ _).2.1
    · rw [if_neg hd]
  by_cases h8 : e.type = "done"
  · by_cases hac : s.assistantCreated = true
    · rw [applyEvent_done_created s e h8 hac]
      exact (updateAssistant_fields _ _).2.1
    · rw [applyEvent_done_not_created s e h8 (by simpa using hac)]
  · rw [applyEvent_unknown s e h1 h2 h3 h4 h5 h6 h7 h8]

/-- The user text is carried unchanged through a whole run. -/
theorem runTurn_userText (text : String) (ss : List SessionRecord)
    (csid : Option String) (es : List EventRecord) :
    (runTurn text ss csid es).userText = text := by
  unfold runTurn
  induction es using List.reverseRecOn with
  | nil => rfl
  | append_singleton es e ih =>
    rw [List.foldl_append, List.foldl_cons, List.foldl_nil,
        applyEvent_userText, ih]

/-- With an empty tool-call list, no event other than `tool_call` can
populate it. -/
theorem applyEvent_toolCalls_empty (s : TurnState) (e : EventRecord)
    (h0 : s.currentToolCalls = []) (hne : e.type ≠ "tool_call") :
    (applyEvent s e).currentToolCalls = [] := by
  by_cases h1 : e.type = "error"
  · rw [applyEvent_error s e h1]; exact h0
  by_cases h2 : e.type = "start"
  · rw [applyEvent_start s e h2]; exact h0
  by_cases h3 : e.type = "thinking"
  · rw [applyEvent_thinking s e h3]
    rw [(updateAssistant_fields _ _).2.2.2.2.2.2.1, (addBlock_fields _ _ _).2.2.2.2.2.1]
    exact h0
  by_cases h5 : e.type = "content"
  · rw [applyEvent_content s e h5]
    rw [(updateAssistant_fields _ _).2.2.2.2.2.2.1, (addBlock_fields _ _ _).2.2.2.2.2.1]
    exact h0
  by_cases h7 : e.type = "tool_result"
  · rw [applyEvent_toolResult s e h7]
    rw [if_neg (by rw [h0]; simp)]
    exact h0
  by_cases h4 : e.type = "thinking_end"
  · rw [applyEvent_thinkingEnd s e h4]
    by_cases hd : truthyNum e.duration = true
    · rw [if_pos hd]
      exact ((updateAssistant_fields _ _).2.2.2.2.2.2.1).trans h0
    · rw [if_neg hd]; exact h0
  by_cases h8 : e.type = "done"
  · by_cases hac : s.assistantCreated = true
    · rw [applyEvent_done_created s e h8 hac]
      exact ((updateAssistant_fields _ _).2.2.2.2.2.2.1).trans h0
    · rw [applyEvent_done_not_created s e h8 (by simpa using hac)]
      exact h0
  · rw [applyEvent_unknown s e h1 h2 h3 h4 h5 hne h7 h8]
    exact h0

/-- A run with no `tool_call` event leaves the tool-call list empty. -/
theorem runTurn_no_toolcall (text : String) (ss : List SessionRecord)
    (csid : Option String) (es : List EventRecord)
    (hes : ∀ ev ∈ es, ev.type ≠ "tool_call") :
    (runTurn text ss csid es).currentToolCalls = [] := by
  unfold runTurn
  induction es using List.reverseRecOn with
  | nil => rfl
  | append_singleton es e ih =>
    rw [List.foldl_append, List.foldl_cons, List.foldl_nil]
    refine applyEvent_toolCalls_empty _ _ ?_ (hes e (by simp))
    exact ih (fun ev hev => hes ev (by simp [hev]))

/-- After an `addBlock` and a message-field update, the assistant message
is exactly the updated one. -/
theorem assistantMsg_after_addBlock (ty : String) (d : BlockData)
    (s1 : TurnState) (f : Msg → Msg) (h : Inv s1)
    (hfid : ∀ m, (f m).id = m.id) :
    ∃ a', assistantMsg? (updateAssistant (addBlock ty d s1) f) = some (f a') := by
  rcases h with ⟨hc, hm⟩ | ⟨hc, a, hm, ha, _⟩
  · rw [addBlock_of_user ty d s1 hm hc]
    set a' : Msg := { blankAssistant with blocks := [Block.ofData ty d] } with ha'
    have hm2 : ({ s1 with messages := [initUserMsg s1.userText, a'], assistantCreated := true } : TurnState).messages = [initUserMsg s1.userText, a'] := rfl
    have hid' : a'.id = assistantMsgId := rfl
    rw [updateAssistant_of_shape _ a' f hm2 hid']
    exact ⟨a', assistantMsg?_of_shape _ (f a') rfl (by rw [hfid]; exact hid')⟩
  · rcases hl : a.blocks.getLast? with _ | cb
    · rw [addBlock_push_of_none ty d s1 a hm ha hc hl]
      set a' : Msg := { a with blocks := a.blocks ++ [Block.ofData ty d] } with ha'
      have hm2 : ({ s1 with messages := [initUserMsg s1.userText, a'] } : TurnState).messages = [initUserMsg s1.userText, a'] := rfl
      have hid' : a'.id = assistantMsgId := ha
      rw [updateAssistant_of_shape _ a' f hm2 hid']
      exact ⟨a', assistantMsg?_of_shape _ (f a') rfl (by rw [hfid]; exact hid')⟩
    · by_cases hty : cb.type = ty
      · rw [addBlock_coalesce ty d s1 a cb hm ha hc hl hty]
        set a' : Msg := { a with blocks := a.blocks.set (a.blocks.length - 1) (mergeBlock cb d) } with ha'
        have hm2 : ({ s1 with messages := [initUserMsg s1.userText, a'] } : TurnState).messages = [initUserMsg s1.userText, a'] := rfl
        have hid' : a'.id = assistantMsgId := ha
        rw [updateAssistant_of_shape _ a' f hm2 hid']
        exact ⟨a', assistantMsg?_of_shape _ (f a') rfl (by rw [hfid]; exact hid')⟩
      · rw [addBlock_push_of_other ty d s1 a cb hm ha hc hl hty]
        set a' : Msg := { a with blocks := a.blocks ++ [Block.ofData ty d] } with ha'
        have hm2 : ({ s1 with messages := [initUserMsg s1.userText, a'] } : TurnState).messages = [initUserMsg s1.userText, a'] := rfl
        have hid' : a'.id = assistantMsgId := ha
        rw [updateAssistant_of_shape _ a' f hm2 hid']
        exact ⟨a', assistantMsg?_of_shape _ (f a') rfl (by rw [hfid]; exact hid')⟩

/-- A `content` event always extends the running text and writes it into
the assistant message, whatever came before. -/
theorem content_step (s : TurnState) (h : Inv s) (c : Option String) :
    (applyEvent s { type := "content", content := c }).currentContent
      = s.currentContent ++ c.getD "" ∧
    assistantContent (applyEvent s { type := "content", content := c })
      = some (s.currentContent ++ c.getD "") := by
  rw [applyEvent_content s _ rfl]
  constructor
  · rw [(updateAssistant_fields _ _).2.2.2.2.1,
        (addBlock_fields _ _ _).2.2.2.1]
  · obtain ⟨a', hA⟩ := assistantMsg_after_addBlock "content"
      { content := c.getD "" }
      { s with currentContent := s.currentContent ++ c.getD "" }
      (fun m => { m with content := s.currentContent ++ c.getD "" })
      (inv_of_fields s _ h rfl rfl rfl) (fun _ => rfl)
    rw [assistantContent, hA]
    rfl

/-- The assistant message's content after a `done` event, once the
message exists, is `data.content || currentContent`. -/
theorem done_content_step (s : TurnState) (e : EventRecord) (a : Msg)
    (he : e.type = "done") (hac : s.assistantCreated = true)
    (hm : s.messages = [initUserMsg s.userText, a]) (ha : a.id = assistantMsgId) :
    assistantContent (applyEvent s e)
      = some (jsOrStr e.content s.currentContent) := by
  rw [applyEvent_done_created s e he hac, updateAssistant_of_shape s a _ hm ha]
  exact assistantContent_of_shape _
    ({ a with
       blocks :=
         if truthyNum e.thinking_duration then
           match a.blocks.findIdx? (fun b => b.type = "thinking") with
           | some i =>
             a.blocks.modify
               (fun b => { b with duration := some (e.thinking_duration.getD ⟨0, 0⟩) }) i
           | none => a.blocks
         else a.blocks,
       content := jsOrStr e.content s.currentContent,
       hasCreatedAt := true, loading := false,
       thinking_duration := jsOrNum e.thinking_duration a.thinking_duration })
    rfl ha

/-! ## Session reconciliation -/

/-- Creation branch: an unknown truthy session id is unshifted onto the
list with the fallback title chain. -/
theorem reconcile_of_absent (ss : List SessionRecord) (u : String)
    (c : Option String) (t : Option String) (sid : String) (hsid : sid ≠ "")
    (hnone : ss.findIdx? (fun r => r.session_id = sid) = none) :
    reconcileSession ss u c (some sid) t
      = ({ session_id := sid,
           title := jsOrStr t (jsOrStr (some (u.take 12 ++ "...")) "新会话") } :: ss,
         some sid) := by
  unfold reconcileSession
  exact (if_neg hsid).trans (by rw [hnone])

/-- Update branch with a truthy title: only that record's title changes. -/
theorem reconcile_of_found_title (ss : List SessionRecord) (u : String)
    (c : Option String) (sid : String) (i : Nat) (t' : String)
    (hsid : sid ≠ "")
    (hfound : ss.findIdx? (fun r => r.session_id = sid) = some i)
    (ht : t' ≠ "") :
    reconcileSession ss u c (some sid) (some t')
      = (ss.modify (fun r => { r with title := t' }) i, some sid) := by
  unfold reconcileSession
  exact (if_neg hsid).trans (by rw [hfound]; exact if_neg ht)

/-- Update branch without a title: the list is unchanged. -/
theorem reconcile_of_found_no_title (ss : List SessionRecord) (u : String)
    (c : Option String) (sid : String) (i : Nat) (hsid : sid ≠ "")
    (hfound : ss.findIdx? (fun r => r.session_id = sid) = some i) :
    reconcileSession ss u c (some sid) none = (ss, some sid) := by
  unfold reconcileSession
  exact (if_neg hsid).trans (by rw [hfound])

/-- Update branch with an empty (falsy) title: the list is unchanged. -/
theorem reconcile_of_found_empty_title (ss : List SessionRecord) (u : String)
    (c : Option String) (sid : String) (i : Nat) (hsid : sid ≠ "")
    (hfound : ss.findIdx? (fun r => r.session_id = sid) = some i) :
    reconcileSession ss u c (some sid) (some "") = (ss, some sid) := by
  unfold reconcileSession
  exact (if_neg hsid).trans (by rw [hfound]; exact if_pos rfl)

/-! ## Claims -/

/-- **C1, counterexample** — Two consecutive `tool_call` events do not
produce two distinct blocks: `addBlock` coalesces the second into the
first, leaving a single `tool_call` block that carries the second call's
tool name (the claim requires two blocks). -/
theorem toolcall_coalesced_cex :
    (assistantBlocks (runTurn "hi" [] none
      [{ type := "tool_call", tool_name := some "searchA" },
       { type := "tool_call", tool_name := some "searchB" }])).map
        (fun b => (b.type, b.tool_name))
      = [("tool_call", some "searchB")] := rfl

/-- **C1, amended** — A `tool_call` event always appends the call to the
turn's tool-call list, but creates a new block only when the last block is
not a `tool_call`; a `tool_call` immediately following another `tool_call`
is coalesced into the existing block, so no new block is created. -/
theorem toolcall_coalescing (text : String) (ss : List SessionRecord)
    (csid : Option String) (es : List EventRecord) (name : String)
    (args : Option Json) :
    (applyEvent (runTurn text ss csid es)
        { type := "tool_call", tool_name := some name, arguments := args }).currentToolCalls.length
      = (runTurn text ss csid es).currentToolCalls.length + 1 ∧
    ((assistantBlocks (runTurn text ss csid es)).getLast?.map Block.type
        = some "tool_call" →
      (assistantBlocks (applyEvent (runTurn text ss csid es)
          { type := "tool_call", tool_name := some name, arguments := args })).length
        = (assistantBlocks (runTurn text ss csid es)).length) ∧
    ((assistantBlocks (runTurn text ss csid es)).getLast?.map Block.type
        ≠ some "tool_call" →
      assistantBlocks (applyEvent (runTurn text ss csid es)
          { type := "tool_call", tool_name := some name, arguments := args })
        = assistantBlocks (runTurn text ss csid es)
          ++ [Block.ofData "tool_call"
              { content := "", tool_name := some name,
                arguments := some (jsOrJson args (Json.obj [])) }]) := by
  set s := runTurn text ss csid es with hs
  have hInv := inv_runTurn text ss csid es
  rw [← hs] at hInv
  rw [applyEvent_toolCall s _ rfl]
  have hcongr : assistantBlocks
      ({ s with currentToolCalls := s.currentToolCalls ++
        [{ tool_name := name, arguments := jsOrJson args (Json.obj []),
           result := "", success := true }] } : TurnState) = assistantBlocks s :=
    assistantBlocks_congr s _ rfl
  have hB := blocks_addBlock_then "tool_call"
    { content := "", tool_name := some name,
      arguments := some (jsOrJson args (Json.obj [])) }
    { s with currentToolCalls := s.currentToolCalls ++
        [{ tool_name := name, arguments := jsOrJson args (Json.obj []),
           result := "", success := true }] }
    (fun m => { m with tool_calls := s.currentToolCalls ++
        [{ tool_name := name, arguments := jsOrJson args (Json.obj []),
           result := "", success := true }] })
    (fun _ => rfl) (fun _ => rfl) (inv_of_fields s _ hInv rfl rfl rfl)
  rw [hcongr] at hB
  refine ⟨?_, ?_, ?_⟩
  · rw [(updateAssistant_fields _ _).2.2.2.2.2.2.1,
        (addBlock_fields _ _ _).2.2.2.2.2.1]
    simp
  · intro hlast
    rcases hB with ⟨hne, _⟩ | ⟨cb, _, _, hR⟩
    · exact absurd hlast hne
    · have hlen : (assistantBlocks (updateAssistant
          (addBlock "tool_call"
            { content := "", tool_name := some name,
              arguments := some (jsOrJson args (Json.obj [])) }
            { s with currentToolCalls := s.currentToolCalls ++
                [{ tool_name := name, arguments := jsOrJson args (Json.obj []),
                   result := "", success := true }] })
          (fun m => { m with tool_calls := s.currentToolCalls ++
              [{ tool_name := name, arguments := jsOrJson args (Json.obj []),
                 result := "", success := true }] }))).length
          = (assistantBlocks s).length := by
        rw [hR, List.length_set]
      exact hlen
  · intro hne0
    rcases hB with ⟨_, hL⟩ | ⟨cb, hlastcb, htycb, _⟩
    · exact hL
    · exact absurd (by simp [hlastcb, htycb]) hne0

/-- Witness for the amended C1 at a concrete turn: after one `tool_call`,
a second `tool_call` grows the tool-call list but not the timeline. -/
theorem toolcall_coalescing_witness :
    (applyEvent (runTurn "hi" [] none [{ type := "tool_call", tool_name := some "searchA" }])
        { type := "tool_call", tool_name := some "searchB", arguments := none }).currentToolCalls.length
      = (runTurn "hi" [] none [{ type := "tool_call", tool_name := some "searchA" }]).currentToolCalls.length + 1 ∧
    (assistantBlocks (applyEvent (runTurn "hi" [] none [{ type := "tool_call", tool_name := some "searchA" }])
        { type := "tool_call", tool_name := some "searchB", arguments := none })).length
      = (assistantBlocks (runTurn "hi" [] none [{ type := "tool_call", tool_name := some "searchA" }])).length :=
  ⟨(toolcall_coalescing "hi" [] none [{ type := "tool_call", tool_name := some "searchA" }] "searchB" none).1,
   (toolcall_coalescing "hi" [] none [{ type := "tool_call", tool_name := some "searchA" }] "searchB" none).2.1
     (by decide)⟩

/-- **C2** — A block's `order` is its position in the `blocks` array: it
is assigned exactly once, when the block is pushed, in arrival order.  A
dispatch step never removes blocks, grows the timeline by at most one
block (at the end), and never changes the kind stored at an existing
position — positions are never reassigned or reused — and the renderer's
stable sort on `(order || 0)` returns the timeline unchanged, so it is
totally ordered by creation order. -/
theorem timeline_order_stable (text : String) (ss : List SessionRecord)
    (csid : Option String) (es : List EventRecord) (e : EventRecord) :
    ((assistantBlocks (applyEvent (runTurn text ss csid es) e)).length
        = (assistantBlocks (runTurn text ss csid es)).length ∨
     (assistantBlocks (applyEvent (runTurn text ss csid es) e)).length
        = (assistantBlocks (runTurn text ss csid es)).length + 1) ∧
    (∀ i, i < (assistantBlocks (runTurn text ss csid es)).length →
      ((assistantBlocks (applyEvent (runTurn text ss csid es) e))[i]?).map Block.type
        = ((assistantBlocks (runTurn text ss csid es))[i]?).map Block.type) ∧
    sortedBlocks (assistantBlocks (applyEvent (runTurn text ss csid es) e))
      = assistantBlocks (applyEvent (runTurn text ss csid es) e) := by
  set s := runTurn text ss csid es with hs
  have hInv := inv_runTurn text ss csid es
  rw [← hs] at hInv
  rcases blocks_step s e hInv with hEq | ⟨b, hApp⟩ | ⟨i, nb, hi, hmap, hSet⟩
  · exact ⟨Or.inl (by rw [hEq]), fun i _ => by rw [hEq], sortedBlocks_eq _⟩
  · refine ⟨Or.inr (by rw [hApp]; simp), fun i hi => ?_, sortedBlocks_eq _⟩
    rw [hApp, List.getElem?_append_left hi]
  · refine ⟨Or.inl (by rw [hSet, List.length_set]), fun j hj => ?_, sortedBlocks_eq _⟩
    rw [hSet, List.getElem?_set]
    by_cases hij : i = j
    · rw [if_pos hij, if_pos (hij ▸ hi)]
      rw [← hij]
      rw [hmap]
      rfl
    · rw [if_neg hij]

/-- Witness for C2 at a concrete turn: a second `content` event neither
moves nor retypes the block created by the first. -/
theorem timeline_order_stable_witness :
    ((assistantBlocks (applyEvent (runTurn "hi" [] none [{ type := "content", content := some "a" }])
        { type := "content", content := some "b" }))[0]?).map Block.type
      = ((assistantBlocks (runTurn "hi" [] none [{ type := "content", content := some "a" }]))[0]?).map Block.type :=
  (timeline_order_stable "hi" [] none [{ type := "content", content := some "a" }]
    { type := "content", content := some "b" }).2.1 0 (by decide)

/-- **C3, counterexample** — With two `thinking` blocks in the timeline,
`thinking_end` sets the duration on the FIRST one (`Array.find`), not on
the most recent: the claim requires the most recent (index 2) to carry
the duration, but it stays unset while index 0 receives it. -/
theorem thinking_end_first_cex :
    (assistantBlocks (runTurn "hi" [] none
      [{ type := "thinking", content := some "a" },
       { type := "content", content := some "x" },
       { type := "thinking", content := some "b" },
       { type := "thinking_end", duration := some ⟨2, 0⟩ }])).map
        (fun b => (b.type, b.duration))
      = [("thinking", some ⟨2, 0⟩), ("content", none), ("thinking", none)] := rfl

/-- **C3, amended** — A `thinking_end` event creates no block; when it
carries a non-zero duration it sets that duration on the FIRST `thinking`
block of the timeline, and when no `thinking` block exists (or the
duration is absent or zero) the timeline's blocks are left unchanged. -/
theorem thinking_end_duration (text : String) (ss : List SessionRecord)
    (csid : Option String) (es : List EventRecord) (d : JNum)
    (hd : d.mantissa ≠ 0) :
    ((assistantBlocks (applyEvent (runTurn text ss csid es)
        { type := "thinking_end", duration := some d })).length
      = (assistantBlocks (runTurn text ss csid es)).length) ∧
    ((assistantBlocks (runTurn text ss csid es)).findIdx?
        (fun b => b.type = "thinking") = none →
      assistantBlocks (applyEvent (runTurn text ss csid es)
          { type := "thinking_end", duration := some d })
        = assistantBlocks (runTurn text ss csid es)) ∧
    (∀ i ob, (assistantBlocks (runTurn text ss csid es)).findIdx?
        (fun b => b.type = "thinking") = some i →
      (assistantBlocks (runTurn text ss csid es)).get? i = some ob →
      assistantBlocks (applyEvent (runTurn text ss csid es)
          { type := "thinking_end", duration := some d })
        = (assistantBlocks (runTurn text ss csid es)).set i
            { ob with duration := some d }) ∧
    applyEvent (runTurn text ss csid es)
        { type := "thinking_end", duration := none }
      = runTurn text ss csid es ∧
    (∀ z : JNum, z.mantissa = 0 →
      applyEvent (runTurn text ss csid es)
          { type := "thinking_end", duration := some z }
        = runTurn text ss csid es) := by
  set s := runTurn text ss csid es with hs
  have hInv := inv_runTurn text ss csid es
  rw [← hs] at hInv
  have htr : truthyNum (some d) = true := by
    simp [truthyNum, hd]
  refine ⟨?_, ?_, ?_, ?_, ?_⟩
  case refine_4 =>
    rw [applyEvent_thinkingEnd s _ rfl]
    rw [if_neg (by simp [truthyNum])]
  case refine_5 =>
    intro z hz
    rw [applyEvent_thinkingEnd s _ rfl]
    rw [if_neg (by simp [truthyNum, hz])]
  all_goals
    rw [applyEvent_thinkingEnd s _ rfl, if_pos htr]
    rcases hInv with ⟨hc, hm⟩ | ⟨hc, a, hm, ha, _⟩
  case refine_1.inl =>
    rw [updateThinkingDuration_of_user s _ hm]
  case refine_1.inr =>
    rw [updateThinkingDuration_of_shape s a _ hm ha]
    have hbs := assistantBlocks_of_shape s a hm ha
    have hX : assistantBlocks ({ s with messages := [initUserMsg s.userText,
        { a with
          blocks :=
            (match a.blocks.findIdx? (fun b => b.type = "thinking") with
             | some i => a.blocks.modify (fun b => { b with duration := some ((some d : Option JNum).getD ⟨0, 0⟩) }) i
             | none => a.blocks),
          thinking_duration := some ((some d : Option JNum).getD ⟨0, 0⟩) }] } : TurnState)
        = (match a.blocks.findIdx? (fun b => b.type = "thinking") with
           | some i => a.blocks.modify (fun b => { b with duration := some ((some d : Option JNum).getD ⟨0, 0⟩) }) i
           | none => a.blocks) :=
      assistantBlocks_of_shape _
        ({ a with
           blocks :=
             (match a.blocks.findIdx? (fun b => b.type = "thinking") with
              | some i => a.blocks.modify (fun b => { b with duration := some ((some d : Option JNum).getD ⟨0, 0⟩) }) i
              | none => a.blocks),
           thinking_duration := some ((some d : Option JNum).getD ⟨0, 0⟩) })
        rfl ha
    rw [hX, hbs]
    rcases hfi : a.blocks.findIdx? (fun b => b.type = "thinking") with _ | i
    · rw [hfi]
    · rw [hfi]
      have hi := findIdx?_lt _ _ _ hfi
      have hx : a.blocks.get? i = some a.blocks[i] := by
        simp [List.get?_eq_getElem?, List.getElem?_eq_getElem hi]
      show (List.modify (fun b => { b with duration := some ((some d : Option JNum).getD ⟨0, 0⟩) }) i a.blocks).length = a.blocks.length
      rw [modify_eq_set_of_mem _ _ _ _ hx, List.length_set]
  case refine_2.inl =>
    intro _
    rw [updateThinkingDuration_of_user s _ hm]
  case refine_2.inr =>
    intro hnone
    rw [assistantBlocks_of_shape s a hm ha] at hnone
    rw [updateThinkingDuration_of_shape s a _ hm ha]
    have hX : assistantBlocks ({ s with messages := [initUserMsg s.userText,
        { a with
          blocks :=
            (match a.blocks.findIdx? (fun b => b.type = "thinking") with
             | some i => a.blocks.modify (fun b => { b with duration := some ((some d : Option JNum).getD ⟨0, 0⟩) }) i
             | none => a.blocks),
          thinking_duration := some ((some d : Option JNum).getD ⟨0, 0⟩) }] } : TurnState)
        = (match a.blocks.findIdx? (fun b => b.type = "thinking") with
           | some i => a.blocks.modify (fun b => { b with duration := some ((some d : Option JNum).getD ⟨0, 0⟩) }) i
           | none => a.blocks) :=
      assistantBlocks_of_shape _
        ({ a with
           blocks :=
             (match a.blocks.findIdx? (fun b => b.type = "thinking") with
              | some i => a.blocks.modify (fun b => { b with duration := some ((some d : Option JNum).getD ⟨0, 0⟩) }) i
              | none => a.blocks),
           thinking_duration := some ((some d : Option JNum).getD ⟨0, 0⟩) })
        rfl ha
    rw [hX, hnone, assistantBlocks_of_shape s a hm ha]
  case refine_3.inl =>
    intro i ob hfound _
    rw [assistantBlocks_of_user s hm] at hfound
    simp [List.findIdx?_nil] at hfound
  case refine_3.inr =>
    intro i ob hfound hget
    rw [assistantBlocks_of_shape s a hm ha] at hfound hget
    rw [updateThinkingDuration_of_shape s a _ hm ha]
    have hX : assistantBlocks ({ s with messages := [initUserMsg s.userText,
        { a with
          blocks :=
            (match a.blocks.findIdx? (fun b => b.type = "thinking") with
             | some i => a.blocks.modify (fun b => { b with duration := some ((some d : Option JNum).getD ⟨0, 0⟩) }) i
             | none => a.blocks),
          thinking_duration := some ((some d : Option JNum).getD ⟨0, 0⟩) }] } : TurnState)
        = (match a.blocks.findIdx? (fun b => b.type = "thinking") with
           | some i => a.blocks.modify (fun b => { b with duration := some ((some d : Option JNum).getD ⟨0, 0⟩) }) i
           | none => a.blocks) :=
      assistantBlocks_of_shape _
        ({ a with
           blocks :=
             (match a.blocks.findIdx? (fun b => b.type = "thinking") with
              | some i => a.blocks.modify (fun b => { b with duration := some ((some d : Option JNum).getD ⟨0, 0⟩) }) i
              | none => a.blocks),
           thinking_duration := some ((some d : Option JNum).getD ⟨0, 0⟩) })
        rfl ha
    rw [hX, hfound, assistantBlocks_of_shape s a hm ha]
    exact modify_eq_set_of_mem _ _ _ _ hget

/-- Witness for the amended C3: after one `thinking` block, a
`thinking_end` with duration 2 sets it on that (first) block. -/
theorem thinking_end_duration_witness :
    assistantBlocks (applyEvent (runTurn "hi" [] none
        [{ type := "thinking", content := some "t" }])
        { type := "thinking_end", duration := some ⟨2, 0⟩ })
      = (assistantBlocks (runTurn "hi" [] none
          [{ type := "thinking", content := some "t" }])).set 0
          { Block.ofData "thinking" { content := "t" } with duration := some ⟨2, 0⟩ } :=
  (thinking_end_duration "hi" [] none [{ type := "thinking", content := some "t" }]
    ⟨2, 0⟩ (by decide)).2.2.1 0 (Block.ofData "thinking" { content := "t" }) rfl rfl

/-- **C4, counterexample** — An event arriving after `done` is NOT
ignored: a `content` event after `done` still extends the assistant
message's accumulated content (from `"a"` to `"ab"`) and its timeline
block. -/
theorem after_done_cex :
    assistantContent (runTurn "hi" [] none
      [{ type := "content", content := some "a" }, { type := "done" }])
      = some "a" ∧
    assistantContent (runTurn "hi" [] none
      [{ type := "content", content := some "a" }, { type := "done" },
       { type := "content", content := some "b" }])
      = some "ab" ∧
    (assistantBlocks (runTurn "hi" [] none
      [{ type := "content", content := some "a" }, { type := "done" },
       { type := "content", content := some "b" }])).map Block.content
      = ["ab"] :=
  ⟨rfl, rfl, rfl⟩

/-- **C4, amended** — The dispatcher has no after-`done` guard: a
`content` event appended after ANY event sequence — including one that
already contained `done` — still extends the accumulated content and the
assistant message exactly as before `done`. -/
theorem after_done_not_ignored (text : String) (ss : List SessionRecord)
    (csid : Option String) (es : List EventRecord) (c : String) :
    (runTurn text ss csid (es ++ [{ type := "content", content := some c }])).currentContent
      = (runTurn text ss csid es).currentContent ++ c ∧
    assistantContent (runTurn text ss csid
        (es ++ [{ type := "content", content := some c }]))
      = some ((runTurn text ss csid es).currentContent ++ c) := by
  have h := content_step (runTurn text ss csid es)
    (inv_runTurn text ss csid es) (some c)
  rw [runTurn, List.foldl_append, List.foldl_cons, List.foldl_nil]
  exact h

/-- **C5, counterexample** — A `done` event carrying the content `""`,
which differs from the accumulated `"Hello"`, does not win: `data.content
|| currentContent` treats the empty string as falsy, so the accumulated
text is kept. -/
theorem done_content_cex :
    assistantContent (runTurn "hi" [] none
      [{ type := "content", content := some "Hello" },
       { type := "done", content := some "" }])
      = some "Hello" ∧ "Hello" ≠ "" :=
  ⟨rfl, by decide⟩

/-- **C5, amended** — If the `done` event carries a NON-EMPTY `content`,
it wins: after `done`, the assistant message's content equals the `done`
event's content, authoritative over the incrementally accumulated text. -/
theorem done_content_wins (text : String) (ss : List SessionRecord)
    (csid : Option String) (es : List EventRecord) (e : EventRecord)
    (he : e.type = "done") (c : String) (hc : e.content = some c)
    (hne : c ≠ "")
    (hac : (runTurn text ss csid es).assistantCreated = true) :
    assistantContent (applyEvent (runTurn text ss csid es) e) = some c := by
  set s := runTurn text ss csid es with hs
  have hInv := inv_runTurn text ss csid es
  rw [← hs] at hInv
  rcases hInv with ⟨hc0, _⟩ | ⟨_, a, hm, ha, _⟩
  · rw [hac] at hc0
    exact absurd hc0 (by simp)
  · rw [done_content_step s e a he hac hm ha, hc]
    simp [jsOrStr, hne]

/-- Witness for the amended C5: a `done` carrying `"Final"` overrides the
accumulated `"Hello"`. -/
theorem done_content_wins_witness :
    assistantContent (applyEvent (runTurn "hi" [] none
        [{ type := "content", content := some "Hello" }])
        { type := "done", content := some "Final" }) = some "Final" :=
  done_content_wins "hi" [] none [{ type := "content", content := some "Hello" }]
    { type := "done", content := some "Final" } rfl "Final" rfl (by decide) (by decide)

/-- **C8** — Session reconciliation is idempotent: an identity-bearing
`start` event applied twice to a session list that does not yet hold the
id creates exactly one record, never a duplicate; the `done` branch
performs the same session bookkeeping; and when a record with the id
already exists and the event carries a truthy title, only that record's
title field is updated. -/
theorem session_reconcile_idempotent (s : TurnState) (sid : String)
    (t : Option String) (hsid : sid ≠ "") :
    (s.sessions.countP (fun r => r.session_id = sid) = 0 →
      (applyEvent s { type := "start", session_id := some sid, title := t }).sessions.countP
          (fun r => r.session_id = sid) = 1 ∧
      (applyEvent (applyEvent s { type := "start", session_id := some sid, title := t })
          { type := "start", session_id := some sid, title := t }).sessions.countP
          (fun r => r.session_id = sid) = 1) ∧
    (applyEvent s { type := "done", session_id := some sid, title := t }).sessions
      = (applyEvent s { type := "start", session_id := some sid, title := t }).sessions ∧
    (∀ i r t', s.sessions.findIdx? (fun r => r.session_id = sid) = some i →
      s.sessions.get? i = some r → t = some t' → t' ≠ "" →
      (applyEvent s { type := "start", session_id := some sid, title := t }).sessions
        = s.sessions.set i { r with title := t' }) := by
  refine ⟨?_, ?_, ?_⟩
  · intro h0
    have hall := List.countP_eq_zero.mp h0
    have hnone : s.sessions.findIdx? (fun r => r.session_id = sid) = none := by
      rw [List.findIdx?_eq_none_iff]
      intro x hx
      simpa using hall x hx
    have h1 : (applyEvent s { type := "start", session_id := some sid, title := t }).sessions
        = { session_id := sid,
            title := jsOrStr t (jsOrStr (some (s.userText.take 12 ++ "...")) "新会话") } :: s.sessions := by
      rw [applyEvent_start s _ rfl]
      show (reconcileSession s.sessions s.userText s.currentSessionId (some sid) t).1 = _
      rw [reconcile_of_absent s.sessions s.userText s.currentSessionId t sid hsid hnone]
    have hcnt1 : (applyEvent s { type := "start", session_id := some sid, title := t }).sessions.countP
        (fun r => r.session_id = sid) = 1 := by
      rw [h1, List.countP_cons, h0]
      simp
    refine ⟨hcnt1, ?_⟩
    have hfound : (applyEvent s { type := "start", session_id := some sid, title := t }).sessions.findIdx?
        (fun r => r.session_id = sid) = some 0 := by
      rw [h1, List.findIdx?_cons, if_pos (by simp)]
    rw [applyEvent_start _ _ rfl]
    show ((reconcileSession _ _ _ (some sid) t).1).countP _ = 1
    rcases t with _ | t'
    · rw [reconcile_of_found_no_title _ _ _ sid 0 hsid hfound]
      exact hcnt1
    · by_cases ht' : t' = ""
      · subst ht'
        rw [reconcile_of_found_empty_title _ _ _ sid 0 hsid hfound]
        exact hcnt1
      · rw [reconcile_of_found_title _ _ _ sid 0 t' hsid hfound ht']
        show (List.modify (fun r : SessionRecord => { r with title := t' }) 0 _).countP
          (fun r => r.session_id = sid) = 1
        rw [countP_modify (fun r : SessionRecord => r.session_id = sid)
          (fun r : SessionRecord => { r with title := t' }) (fun x => rfl)]
        exact hcnt1
  · by_cases hac : s.assistantCreated = true
    · rw [applyEvent_done_created s _ rfl hac, applyEvent_start s _ rfl]
    · rw [applyEvent_done_not_created s _ rfl (by simpa using hac),
          applyEvent_start s _ rfl]
  · intro i r t' hfound hget ht htne
    subst ht
    rw [applyEvent_start s _ rfl]
    show (reconcileSession s.sessions s.userText s.currentSessionId (some sid) (some t')).1 = _
    rw [reconcile_of_found_title s.sessions s.userText s.currentSessionId sid i t' hsid hfound htne]
    exact modify_eq_set_of_mem _ _ _ _ hget

/-- Witness for C8: applying the same `start` event twice to a fresh turn
leaves exactly one record for the session id. -/
theorem session_reconcile_idempotent_witness :
    (applyEvent (applyEvent (initState "hi" [] none)
        { type := "start", session_id := some "s1", title := some "T" })
        { type := "start", session_id := some "s1", title := some "T" }).sessions.countP
        (fun r => r.session_id = "s1") = 1 :=
  ((session_reconcile_idempotent (initState "hi" [] none) "s1" (some "T")
    (by decide)).1 (by decide)).2

/-- **C9, counterexample** — On a non-abort transport error the `catch`
removes the turn's assistant message even when it is already populated
(content `"Hello"`), not only a not-yet-populated placeholder. -/
theorem catch_removes_populated_cex :
    assistantContent (runTurn "hi" [] none
      [{ type := "content", content := some "Hello" }]) = some "Hello" ∧
    (handleCatch (runTurn "hi" [] none
      [{ type := "content", content := some "Hello" }]) "TypeError" "boom").messages
      = [initUserMsg "hi"] :=
  ⟨rfl, rfl⟩

/-- **C9, amended** — On a non-abort exception a non-empty user-visible
error is surfaced and the turn's assistant message is removed from the
message list whether or not it was populated; the user's own message is
never removed; an `AbortError` changes nothing. -/
theorem catch_error_surfaced (text : String) (ss : List SessionRecord)
    (csid : Option String) (es : List EventRecord) (errName errMessage : String)
    (hne : errName ≠ "AbortError") :
    (∃ msg, (handleCatch (runTurn text ss csid es) errName errMessage).errorMsg
        = some msg ∧ msg ≠ "") ∧
    initUserMsg text ∈ (handleCatch (runTurn text ss csid es) errName errMessage).messages ∧
    (∀ m ∈ (handleCatch (runTurn text ss csid es) errName errMessage).messages,
      m.id ≠ assistantMsgId) ∧
    handleCatch (runTurn text ss csid es) "AbortError" errMessage
      = runTurn text ss csid es := by
  set s := runTurn text ss csid es with hs
  have hInv := inv_runTurn text ss csid es
  rw [← hs] at hInv
  have hut : s.userText = text := by
    rw [hs]
    exact runTurn_userText text ss csid es
  refine ⟨⟨jsOrStr (some errMessage) "发送消息失败", ?_, ?_⟩, ?_, ?_, ?_⟩
  · unfold handleCatch
    rw [if_neg hne]
  · show (if errMessage = "" then "发送消息失败" else errMessage) ≠ ""
    split_ifs with h
    · decide
    · exact h
  · unfold handleCatch
    rw [if_neg hne]
    rcases hInv with ⟨hc, hm⟩ | ⟨hc, a, hm, ha, _⟩
    · rw [if_neg (by simp [hc])]
      show initUserMsg text ∈ s.messages
      rw [hm, hut]
      simp
    · rw [if_pos hc]
      show initUserMsg text ∈ s.messages.filter (fun m => m.id ≠ assistantMsgId)
      rw [hm, hut]
      simp [List.mem_filter, initUserMsg, userMsgId, assistantMsgId]
  · unfold handleCatch
    rw [if_neg hne]
    rcases hInv with ⟨hc, hm⟩ | ⟨hc, a, hm, ha, _⟩
    · rw [if_neg (by simp [hc])]
      show ∀ m ∈ s.messages, m.id ≠ assistantMsgId
      rw [hm]
      simp [initUserMsg, userMsgId, assistantMsgId]
    · rw [if_pos hc]
      show ∀ m ∈ s.messages.filter (fun m => m.id ≠ assistantMsgId), m.id ≠ assistantMsgId
      intro m hmem
      exact of_decide_eq_true (List.mem_filter.mp hmem).2
  · unfold handleCatch
    rw [if_pos rfl]

/-- Witness for the amended C9: the user's message survives a concrete
transport error. -/
theorem catch_error_surfaced_witness :
    initUserMsg "hi" ∈ (handleCatch (runTurn "hi" [] none
      [{ type := "content", content := some "Hello" }]) "TypeError" "boom").messages :=
  (catch_error_surfaced "hi" [] none [{ type := "content", content := some "Hello" }]
    "TypeError" "boom" (by decide)).2.1

/-- **C10** — A `tool_result` event arriving in a turn with no earlier
`tool_call` event is silently dropped: the whole state — timeline,
tool-call list, messages — is left exactly as it was. -/
theorem tool_result_without_call_dropped (text : String)
    (ss : List SessionRecord) (csid : Option String) (es : List EventRecord)
    (e : EventRecord) (hes : ∀ ev ∈ es, ev.type ≠ "tool_call")
    (he : e.type = "tool_result") :
    applyEvent (runTurn text ss csid es) e = runTurn text ss csid es := by
  have h0 := runTurn_no_toolcall text ss csid es hes
  rw [applyEvent_toolResult _ e he, if_neg (by rw [h0]; simp)]

/-- Witness for C10 at a concrete turn with only a `thinking` event. -/
theorem tool_result_without_call_dropped_witness :
    applyEvent (runTurn "hi" [] none [{ type := "thinking", content := some "t" }])
        { type := "tool_result", result := some "r" }
      = runTurn "hi" [] none [{ type := "thinking", content := some "t" }] :=
  tool_result_without_call_dropped "hi" [] none
    [{ type := "thinking", content := some "t" }]
    { type := "tool_result", result := some "r" } (by decide) rfl

end MiniAgent
